import Mathlib

/-!
Verification development for the storm-event-leads repository.

The definitions below are a shallow embedding of the two-stage spatial
clustering engine (`cluster/cluster_hail.py`, `cluster/cluster_addresses.py`)
and of the pipeline orchestrator (`orchestrate_pipeline.py`).  Coordinates are
rational numbers; geometries produced by the shapely library are modelled by
the inductive type `Geom` below, keeping exactly the observations the scripts
make of them (polygon-hood, area sign, bounds, centroid).
-/

namespace StormLeads

/-- A non-empty planar geometry, modelling the shapely objects that flow
through the clustering scripts: a single point, a (possibly degenerate)
line string with two endpoints, or a polygon given by its ring vertices
(at least one vertex, stored as head plus tail).  The scripts only ever
build hulls of at least one point, so empty geometries do not occur. -/
inductive Geom where
  | point (x y : ℚ)
  | line (p q : ℚ × ℚ)
  | poly (v : ℚ × ℚ) (vs : List (ℚ × ℚ))
deriving DecidableEq

/-- `isinstance(g, Polygon)` of the Python code. -/
def Geom.isPoly : Geom → Bool
  | .poly _ _ => true
  | _ => false

/-- The defining coordinates of a geometry (never empty by construction). -/
def Geom.ptsList : Geom → List (ℚ × ℚ)
  | .point x y => [(x, y)]
  | .line p q => [p, q]
  | .poly v vs => v :: vs

/-- Signed shoelace sum of a ring: the edges walk the list and close back to
`first`. -/
def shoelaceAux (first : ℚ × ℚ) : List (ℚ × ℚ) → ℚ
  | [] => 0
  | [p] => p.1 * first.2 - first.1 * p.2
  | p :: q :: rest => (p.1 * q.2 - q.1 * p.2) + shoelaceAux first (q :: rest)

/-- Unsigned area of a polygon ring (shoelace formula). -/
def ringArea (vs : List (ℚ × ℚ)) : ℚ :=
  match vs with
  | [] => 0
  | v :: _ => |shoelaceAux v vs| / 2

/-- `g.area` of shapely: zero for points and lines, shoelace area for
polygons. -/
def Geom.area : Geom → ℚ
  | .point _ _ => 0
  | .line _ _ => 0
  | .poly v vs => ringArea (v :: vs)

def listMin (x : ℚ) (l : List ℚ) : ℚ := l.foldl min x

def listMax (x : ℚ) (l : List ℚ) : ℚ := l.foldl max x

def Geom.minX (g : Geom) : ℚ :=
  match g.ptsList with
  | [] => 0
  | p :: ps => listMin p.1 (ps.map Prod.fst)

def Geom.maxX (g : Geom) : ℚ :=
  match g.ptsList with
  | [] => 0
  | p :: ps => listMax p.1 (ps.map Prod.fst)

def Geom.minY (g : Geom) : ℚ :=
  match g.ptsList with
  | [] => 0
  | p :: ps => listMin p.2 (ps.map Prod.snd)

def Geom.maxY (g : Geom) : ℚ :=
  match g.ptsList with
  | [] => 0
  | p :: ps => listMax p.2 (ps.map Prod.snd)

/-- Axis-aligned rectangle as a polygon ring. -/
def rectPoly (x0 y0 x1 y1 : ℚ) : Geom :=
  .poly (x0, y0) [(x1, y0), (x1, y1), (x0, y1)]

/-- Model of shapely `g.buffer(r)` as used by `to_polygon`: inflating a
non-empty geometry by a positive radius.  The claims checked here depend only
on the facts that the result is a polygon and that its area is strictly
positive for `r > 0`; we realise the inflation as the bounding box expanded
by `r` on every side, which has both properties. -/
def Geom.buffer (g : Geom) (r : ℚ) : Geom :=
  rectPoly (g.minX - r) (g.minY - r) (g.maxX + r) (g.maxY + r)

/-- Model of shapely `g.envelope`: the axis-aligned bounding box. -/
def Geom.envelope (g : Geom) : Geom :=
  rectPoly g.minX g.minY g.maxX g.maxY

/-- Model of shapely `g.centroid` / PostGIS `ST_Centroid`: a representative
interior point, realised as the arithmetic mean of the defining coordinates.
No claim checked here depends on which representative point is chosen — the
secondary-clustering claims are relative to whatever centroid the code uses. -/
def Geom.centroidPt (g : Geom) : ℚ × ℚ :=
  match g.ptsList with
  | [] => (0, 0)
  | p :: ps =>
    (((p :: ps).map Prod.fst).sum / ((p :: ps).length : ℚ),
     ((p :: ps).map Prod.snd).sum / ((p :: ps).length : ℚ))

/-- `to_polygon` of `cluster/cluster_hail.py` (lines 77–99): repair a convex
hull into a non-empty positive-area polygon.  The Python `try`/`except`
blocks guard library failures that the total model cannot exhibit; the
successive fallbacks are kept as written. -/
def to_polygon (hull : Geom) : Geom :=
  if hull.isPoly && decide (0 < hull.area) then hull
  else
    let buf := hull.buffer (1 / 1000000)
    if buf.isPoly && decide (0 < buf.area) then buf
    else
      let buf2 := hull.envelope.buffer (1 / 1000000000)
      if buf2.isPoly && decide (0 < buf2.area) then buf2
      else
        let c := hull.centroidPt
        (Geom.point c.1 c.2).buffer (1 / 1000000)

lemma listMin_le_listMax (l : List ℚ) : ∀ x y : ℚ, x ≤ y → listMin x l ≤ listMax y l := by
  induction l with
  | nil => intro x y h; simpa [listMin, listMax] using h
  | cons a l ih =>
    intro x y h
    simp only [listMin, listMax, List.foldl_cons] at *
    exact ih (min x a) (max y a)
      (le_trans (min_le_left x a) (le_trans h (le_max_left y a)))

lemma minX_le_maxX (g : Geom) : g.minX ≤ g.maxX := by
  cases g with
  | point x y => simp [Geom.minX, Geom.maxX, Geom.ptsList, listMin, listMax]
  | line p q =>
    simpa [Geom.minX, Geom.maxX, Geom.ptsList] using
      listMin_le_listMax [q.1] p.1 p.1 le_rfl
  | poly v vs =>
    simpa [Geom.minX, Geom.maxX, Geom.ptsList] using
      listMin_le_listMax (vs.map Prod.fst) v.1 v.1 le_rfl

lemma minY_le_maxY (g : Geom) : g.minY ≤ g.maxY := by
  cases g with
  | point x y => simp [Geom.minY, Geom.maxY, Geom.ptsList, listMin, listMax]
  | line p q =>
    simpa [Geom.minY, Geom.maxY, Geom.ptsList] using
      listMin_le_listMax [q.2] p.2 p.2 le_rfl
  | poly v vs =>
    simpa [Geom.minY, Geom.maxY, Geom.ptsList] using
      listMin_le_listMax (vs.map Prod.snd) v.2 v.2 le_rfl

lemma rectPoly_area (a b c d : ℚ) : (rectPoly a b c d).area = |(c - a) * (d - b)| := by
  have h : shoelaceAux (a, b) [(a, b), (c, b), (c, d), (a, d)] = 2 * ((c - a) * (d - b)) := by
    simp only [shoelaceAux]
    ring
  simp only [rectPoly, Geom.area, ringArea, h, abs_mul]
  rw [abs_two]
  ring

lemma rectPoly_isPoly (a b c d : ℚ) : (rectPoly a b c d).isPoly = true := rfl

lemma buffer_isPoly (g : Geom) (r : ℚ) : (g.buffer r).isPoly = true := rfl

lemma buffer_area_pos (g : Geom) (r : ℚ) (hr : 0 < r) : 0 < (g.buffer r).area := by
  have hx : 0 < g.maxX + r - (g.minX - r) := by
    have := minX_le_maxX g
    linarith
  have hy : 0 < g.maxY + r - (g.minY - r) := by
    have := minY_le_maxY g
    linarith
  have harea := rectPoly_area (g.minX - r) (g.minY - r) (g.maxX + r) (g.maxY + r)
  have hpos : 0 < (g.maxX + r - (g.minX - r)) * (g.maxY + r - (g.minY - r)) :=
    mul_pos hx hy
  calc (0 : ℚ) < (g.maxX + r - (g.minX - r)) * (g.maxY + r - (g.minY - r)) := hpos
    _ = |(g.maxX + r - (g.minX - r)) * (g.maxY + r - (g.minY - r))| := (abs_of_pos hpos).symm
    _ = (g.buffer r).area := by rw [Geom.buffer, harea]

/-- Core repair property shared by the hull claims: `to_polygon` always
returns a polygon of strictly positive area. -/
lemma to_polygon_ok (g : Geom) : (to_polygon g).isPoly = true ∧ 0 < (to_polygon g).area := by
  unfold to_polygon
  by_cases h1 : (g.isPoly && decide (0 < g.area)) = true
  · rw [if_pos h1]
    simpa using h1
  · rw [if_neg h1]
    have hb : ((g.buffer (1 / 1000000)).isPoly
        && decide (0 < (g.buffer (1 / 1000000)).area)) = true := by
      have hp := buffer_isPoly g (1 / 1000000)
      have ha := buffer_area_pos g (1 / 1000000) (by norm_num)
      rw [Bool.and_eq_true]
      exact ⟨hp, by simpa using ha⟩
    rw [if_pos hb]
    exact ⟨buffer_isPoly g _, buffer_area_pos g _ (by norm_num)⟩

/-- C1: for every non-empty input geometry (the hull of a point set with at
least one point, including a single point or collinear points), the
hull-repair routine `to_polygon` returns a valid polygon with strictly
positive area, and — being a total function — never raises an exception to
its caller. -/
theorem C1_to_polygon_valid_positive (g : Geom) :
    (to_polygon g).isPoly = true ∧ 0 < (to_polygon g).area :=
  to_polygon_ok g

/-! ### `split_dates` (orchestrate_pipeline.py, lines 70–78) -/

/-- Body of the `while cur < end` loop of `split_dates`, with dates as day
ordinals (Python `datetime.date` with `timedelta(days=·)` is
order-isomorphic to ℤ).  The loop is modelled with a fuel argument bounding
the number of iterations; `(e - cur).toNat` steps are proved sufficient
whenever `span ≥ 1` (for `span ≤ 0` and `cur < e` the Python loop never
terminates, a case outside every claim). -/
def splitDatesAux (span : ℤ) : ℕ → ℤ → ℤ → List (ℤ × ℤ)
  | 0, _, _ => []
  | fuel + 1, cur, e =>
    if cur < e then
      (cur, min (cur + span) e) :: splitDatesAux span fuel (min (cur + span) e) e
    else []

/-- `split_dates(start, end, span_days)`: split `[start, end)` into
non-overlapping chunks of at most `span_days` days. -/
def split_dates (start e span : ℤ) : List (ℤ × ℤ) :=
  splitDatesAux span (e - start).toNat start e

lemma splitDatesAux_nil_of_le (span : ℤ) (fuel : ℕ) (cur e : ℤ) (h : e ≤ cur) :
    splitDatesAux span fuel cur e = [] := by
  cases fuel with
  | zero => rfl
  | succ f => simp [splitDatesAux, not_lt.mpr h]

lemma splitDatesAux_mem (span : ℤ) (hspan : 1 ≤ span) :
    ∀ (fuel : ℕ) (cur e : ℤ), ∀ p ∈ splitDatesAux span fuel cur e,
      p.1 < p.2 ∧ p.2 - p.1 ≤ span := by
  intro fuel
  induction fuel with
  | zero => intro cur e p hp; simp [splitDatesAux] at hp
  | succ f ih =>
    intro cur e p hp
    by_cases h : cur < e
    · simp only [splitDatesAux, if_pos h, List.mem_cons] at hp
      rcases hp with hp | hp
      · subst hp
        constructor
        · show cur < min (cur + span) e
          omega
        · show min (cur + span) e - cur ≤ span
          omega
      · exact ih _ _ p hp
    · simp [splitDatesAux, if_neg h] at hp

lemma splitDatesAux_chain (span : ℤ) (hspan : 1 ≤ span) :
    ∀ (fuel : ℕ) (cur e : ℤ), (e - cur).toNat ≤ fuel →
      List.Chain' (fun p q : ℤ × ℤ => p.2 = q.1) (splitDatesAux span fuel cur e) := by
  intro fuel
  induction fuel with
  | zero => intro cur e _; simp [splitDatesAux]
  | succ f ih =>
    intro cur e hfuel
    by_cases h : cur < e
    · rw [splitDatesAux, if_pos h]
      rw [List.chain'_cons']
      refine ⟨?_, ih (min (cur + span) e) e (by omega)⟩
      intro q hq
      by_cases h2 : min (cur + span) e < e
      · cases f with
        | zero =>
          exfalso
          have : (e - min (cur + span) e).toNat ≤ 0 := by omega
          omega
        | succ f2 =>
          rw [splitDatesAux, if_pos h2] at hq
          simp only [List.head?_cons, Option.mem_def, Option.some.injEq] at hq
          subst hq
          rfl
      · rw [splitDatesAux_nil_of_le span f _ e (by omega)] at hq
        simp at hq
    · rw [splitDatesAux, if_neg h]
      simp

lemma splitDatesAux_last (span : ℤ) (hspan : 1 ≤ span) :
    ∀ (fuel : ℕ) (cur e : ℤ), cur < e → (e - cur).toNat ≤ fuel →
      ∃ a : ℤ, (splitDatesAux span fuel cur e).getLast? = some (a, e) := by
  intro fuel
  induction fuel with
  | zero => intro cur e h hfuel; exfalso; omega
  | succ f ih =>
    intro cur e h hfuel
    rw [splitDatesAux, if_pos h]
    by_cases h2 : min (cur + span) e < e
    · obtain ⟨a, ha⟩ := ih (min (cur + span) e) e h2 (by omega)
      refine ⟨a, ?_⟩
      cases htail : splitDatesAux span f (min (cur + span) e) e with
      | nil => rw [htail] at ha; simp at ha
      | cons b l =>
        rw [htail] at ha
        rw [List.getLast?_cons_cons]
        exact ha
    · have hmin : min (cur + span) e = e := by omega
      rw [splitDatesAux_nil_of_le span f _ e (by omega)]
      exact ⟨cur, by rw [hmin]; rfl⟩

/-- C10: for `start < end` and `span_days ≥ 1`, `split_dates` returns a
non-empty list of consecutive half-open ranges exactly tiling
`[start, end)`: the first range begins at `start`, each range begins where
the previous one ends, the last range ends at `end`, every range is
non-empty and spans at most `span_days` days; for `start ≥ end` it returns
the empty list. -/
theorem C10_split_dates_tiling (start e span : ℤ) :
    (start < e → 1 ≤ span →
      split_dates start e span ≠ [] ∧
      (split_dates start e span).head?.map Prod.fst = some start ∧
      (split_dates start e span).getLast?.map Prod.snd = some e ∧
      List.Chain' (fun p q : ℤ × ℤ => p.2 = q.1) (split_dates start e span) ∧
      ∀ p ∈ split_dates start e span, p.1 < p.2 ∧ p.2 - p.1 ≤ span) ∧
    (e ≤ start → split_dates start e span = []) := by
  constructor
  · intro h hspan
    have hposfuel : (e - start).toNat = ((e - start).toNat - 1) + 1 := by omega
    refine ⟨?_, ?_, ?_, ?_, ?_⟩
    · rw [split_dates, hposfuel, splitDatesAux, if_pos h]
      simp
    · rw [split_dates, hposfuel, splitDatesAux, if_pos h]
      rfl
    · obtain ⟨a, ha⟩ := splitDatesAux_last span hspan (e - start).toNat start e h le_rfl
      rw [split_dates, ha]
      rfl
    · exact splitDatesAux_chain span hspan (e - start).toNat start e le_rfl
    · exact splitDatesAux_mem span hspan (e - start).toNat start e
  · intro h
    rw [split_dates]
    exact splitDatesAux_nil_of_le span _ start e h

/-- Concrete witness for C10: `split_dates 0 100 45 = [(0,45),(45,90),(90,100)]`
satisfies every tiling property, and `split_dates 5 3 2` is empty. -/
theorem C10_split_dates_tiling_witness :
    ((0 : ℤ) < 100 ∧ (1 : ℤ) ≤ 45 ∧
      (split_dates 0 100 45 ≠ [] ∧
       (split_dates 0 100 45).head?.map Prod.fst = some 0 ∧
       (split_dates 0 100 45).getLast?.map Prod.snd = some 100 ∧
       List.Chain' (fun p q : ℤ × ℤ => p.2 = q.1) (split_dates 0 100 45) ∧
       ∀ p ∈ split_dates 0 100 45, p.1 < p.2 ∧ p.2 - p.1 ≤ 45)) ∧
    ((3 : ℤ) ≤ 5 ∧ split_dates 5 3 2 = []) := by
  constructor
  · exact ⟨by decide, by decide,
      (C10_split_dates_tiling 0 100 45).1 (by decide) (by decide)⟩
  · exact ⟨by decide, (C10_split_dates_tiling 5 3 2).2 (by decide)⟩

/-! ### DBSCAN

Both clustering scripts call `sklearn.cluster.DBSCAN(eps, min_samples)
.fit_predict(coords)`.  The model below implements the library's documented
semantics: Euclidean metric, neighbourhoods are closed `eps`-balls and
include the query point itself, a point is core when its neighbourhood has
at least `min_samples` points (the point itself counted), clusters are the
core-connectivity components labelled `0, 1, …` in scan order, border
points are claimed by the first cluster that reaches them, and unreachable
points are labelled `-1` (noise). -/

/-- Squared Euclidean distance. -/
def dist2 (p q : ℚ × ℚ) : ℚ := (p.1 - q.1) * (p.1 - q.1) + (p.2 - q.2) * (p.2 - q.2)

/-- Indices of the points within `eps` of point `i` (including `i`). -/
def nbrs (pts : List (ℚ × ℚ)) (eps : ℚ) (i : ℕ) : List ℕ :=
  (List.range pts.length).filter (fun j =>
    decide (dist2 (pts.getD i (0, 0)) (pts.getD j (0, 0)) ≤ eps * eps))

/-- Core point test: at least `minPts` neighbours (self included). -/
def isCore (pts : List (ℚ × ℚ)) (eps : ℚ) (minPts : ℕ) (i : ℕ) : Bool :=
  decide (minPts ≤ (nbrs pts eps i).length)

/-- One expansion step of density-reachability: keep `s` and add every
neighbour of a core member of `s`. -/
def expandStep (pts : List (ℚ × ℚ)) (eps : ℚ) (minPts : ℕ) (s : List ℕ) : List ℕ :=
  (List.range pts.length).filter (fun j =>
    decide (j ∈ s) || s.any (fun k =>
      isCore pts eps minPts k && decide (j ∈ nbrs pts eps k)))

/-- All points density-reachable from `i`; `pts.length` expansion steps
reach the fixpoint. -/
def reach (pts : List (ℚ × ℚ)) (eps : ℚ) (minPts : ℕ) (i : ℕ) : List ℕ :=
  (expandStep pts eps minPts)^[pts.length] [i]

/-- A label that a newly formed cluster may overwrite: unlabelled, or
tentative noise. -/
def claimable : Option ℤ → Bool
  | none => true
  | some l => decide (l < 0)

/-- Scan-order processing of one point: skip it if already labelled; if it
is core, label everything reachable from it (and not already owned by an
earlier cluster) with the next cluster id; otherwise mark it noise. -/
def dbStep (pts : List (ℚ × ℚ)) (eps : ℚ) (minPts : ℕ)
    (acc : (ℕ → Option ℤ) × ℤ) (i : ℕ) : (ℕ → Option ℤ) × ℤ :=
  if (acc.1 i).isSome then acc
  else if isCore pts eps minPts i then
    (fun j => if decide (j ∈ reach pts eps minPts i) && claimable (acc.1 j)
      then some acc.2 else acc.1 j,
     acc.2 + 1)
  else
    (fun j => if j = i then some (-1) else acc.1 j, acc.2)

def dbscanFold (pts : List (ℚ × ℚ)) (eps : ℚ) (minPts : ℕ) : (ℕ → Option ℤ) × ℤ :=
  (List.range pts.length).foldl (dbStep pts eps minPts) (fun _ => none, 0)

/-- `DBSCAN(eps, min_samples).fit_predict(coords)`: one label per input
point, `-1` for noise, cluster ids `0, 1, …` otherwise. -/
def dbscan (pts : List (ℚ × ℚ)) (eps : ℚ) (minPts : ℕ) : List ℤ :=
  (List.range pts.length).map (fun i => ((dbscanFold pts eps minPts).1 i).getD (-1))

lemma dbscan_length (pts : List (ℚ × ℚ)) (eps : ℚ) (minPts : ℕ) :
    (dbscan pts eps minPts).length = pts.length := by
  simp [dbscan]

lemma dbStep_of_some {pts : List (ℚ × ℚ)} {eps : ℚ} {minPts : ℕ}
    {acc : (ℕ → Option ℤ) × ℤ} {i : ℕ} {v : ℤ} (h : acc.1 i = some v) :
    dbStep pts eps minPts acc i = acc := by
  simp [dbStep, h]

lemma foldl_dbStep_frozen (pts : List (ℚ × ℚ)) (eps : ℚ) (minPts : ℕ) :
    ∀ (l : List ℕ) (acc : (ℕ → Option ℤ) × ℤ),
      (∀ i ∈ l, ∃ v, acc.1 i = some v) →
      List.foldl (dbStep pts eps minPts) acc l = acc := by
  intro l
  induction l with
  | nil => intro acc _; rfl
  | cons a t ih =>
    intro acc h
    obtain ⟨v, hv⟩ := h a (List.mem_cons_self a t)
    rw [List.foldl_cons, dbStep_of_some hv]
    exact ih acc (fun i hi => h i (List.mem_cons_of_mem a hi))

lemma nbrs_all (pts : List (ℚ × ℚ)) (eps : ℚ)
    (hd : ∀ p ∈ pts, ∀ q ∈ pts, dist2 p q < eps * eps)
    (i : ℕ) (hi : i < pts.length) :
    nbrs pts eps i = List.range pts.length := by
  rw [nbrs, List.filter_eq_self]
  intro j hj
  have hj2 : j < pts.length := List.mem_range.mp hj
  have h1 : pts.getD i (0, 0) ∈ pts := by
    rw [List.getD_eq_getElem pts (0, 0) hi]
    exact List.getElem_mem hi
  have h2 : pts.getD j (0, 0) ∈ pts := by
    rw [List.getD_eq_getElem pts (0, 0) hj2]
    exact List.getElem_mem hj2
  exact decide_eq_true (le_of_lt (hd _ h1 _ h2))

lemma self_mem_nbrs (pts : List (ℚ × ℚ)) (eps : ℚ) (i : ℕ) (hi : i < pts.length) :
    i ∈ nbrs pts eps i := by
  rw [nbrs]
  apply List.mem_filter.mpr
  refine ⟨List.mem_range.mpr hi, ?_⟩
  have hz : dist2 (pts.getD i (0, 0)) (pts.getD i (0, 0)) = 0 := by
    simp [dist2]
  rw [decide_eq_true_eq, hz]
  exact mul_self_nonneg eps

lemma isCore_one (pts : List (ℚ × ℚ)) (eps : ℚ) (i : ℕ) (hi : i < pts.length) :
    isCore pts eps 1 i = true := by
  rw [isCore, decide_eq_true_eq]
  exact List.length_pos_of_mem (self_mem_nbrs pts eps i hi)

lemma expandStep_of_all (pts : List (ℚ × ℚ)) (eps : ℚ) (minPts : ℕ) (s : List ℕ)
    (hs : ∀ j, j < pts.length → j ∈ s) :
    expandStep pts eps minPts s = List.range pts.length := by
  rw [expandStep, List.filter_eq_self]
  intro j hj
  have := hs j (List.mem_range.mp hj)
  simp [this]

lemma expandStep_seed (pts : List (ℚ × ℚ)) (eps : ℚ)
    (hd : ∀ p ∈ pts, ∀ q ∈ pts, dist2 p q < eps * eps) (h0 : 0 < pts.length) :
    expandStep pts eps 1 [0] = List.range pts.length := by
  rw [expandStep, List.filter_eq_self]
  intro j hj
  have hcore := isCore_one pts eps 0 h0
  have hnb := nbrs_all pts eps hd 0 h0
  apply Bool.or_eq_true_iff.mpr
  right
  simp [hcore, hnb, hj]

lemma reach_zero (pts : List (ℚ × ℚ)) (eps : ℚ)
    (hd : ∀ p ∈ pts, ∀ q ∈ pts, dist2 p q < eps * eps) (h0 : 0 < pts.length) :
    reach pts eps 1 0 = List.range pts.length := by
  have hfix : ∀ k, (expandStep pts eps 1)^[k] (List.range pts.length) = List.range pts.length := by
    intro k
    induction k with
    | zero => rfl
    | succ k ih =>
      rw [Function.iterate_succ_apply,
        expandStep_of_all pts eps 1 _ (fun j hj => List.mem_range.mpr hj), ih]
  have hpos : ∀ k, 0 < k → (expandStep pts eps 1)^[k] [0] = List.range pts.length := by
    intro k hk
    obtain ⟨m, rfl⟩ : ∃ m, k = m + 1 := ⟨k - 1, by omega⟩
    rw [Function.iterate_succ_apply, expandStep_seed pts eps hd h0, hfix m]
  exact hpos pts.length h0

lemma dbscanFold_all_zero (pts : List (ℚ × ℚ)) (eps : ℚ)
    (hd : ∀ p ∈ pts, ∀ q ∈ pts, dist2 p q < eps * eps) (h0 : 0 < pts.length) :
    ∀ j < pts.length, (dbscanFold pts eps 1).1 j = some 0 := by
  have hacc1 : ∀ i < pts.length,
      (dbStep pts eps 1 (fun _ => none, 0) 0).1 i = some 0 := by
    intro i hi
    have hcore := isCore_one pts eps 0 h0
    have hreach := reach_zero pts eps hd h0
    simp [dbStep, hcore, hreach, claimable, hi]
  intro j hj
  rw [dbscanFold]
  obtain ⟨m, hm⟩ : ∃ m, pts.length = m + 1 := ⟨pts.length - 1, by omega⟩
  rw [hm, List.range_succ_eq_map, List.foldl_cons]
  have hfrozen : ∀ i ∈ (List.range m).map Nat.succ, ∃ v,
      (dbStep pts eps 1 (fun _ => none, 0) 0).1 i = some v := by
    intro i hi
    obtain ⟨k, hk, rfl⟩ := List.mem_map.mp hi
    have hkm := List.mem_range.mp hk
    exact ⟨0, hacc1 (k + 1) (by omega)⟩
  rw [foldl_dbStep_frozen pts eps 1 _ _ hfrozen]
  exact hacc1 j hj

/-- Shared helper: with `min_samples = 1` and every pairwise squared
distance below `eps^2`, DBSCAN puts all points in cluster `0`. -/
lemma dbscan_one_cluster (pts : List (ℚ × ℚ)) (eps : ℚ)
    (hd : ∀ p ∈ pts, ∀ q ∈ pts, dist2 p q < eps * eps) :
    dbscan pts eps 1 = List.replicate pts.length 0 := by
  rcases Nat.eq_zero_or_pos pts.length with h0 | h0
  · rw [dbscan, h0]
    rfl
  · have key := dbscanFold_all_zero pts eps hd h0
    rw [dbscan]
    have hcong : ∀ i ∈ List.range pts.length,
        ((dbscanFold pts eps 1).1 i).getD (-1) = (fun _ => (0 : ℤ)) i := by
      intro i hi
      rw [key i (List.mem_range.mp hi)]
      rfl
    rw [List.map_congr_left hcong, List.map_const', List.length_range]

/-- C9: for every finite point set, DBSCAN with `min_samples = 1` and an
`eps` larger than the maximum pairwise distance assigns every point
(including an isolated single input point) to exactly one cluster — all
labels are the single cluster id `0`, no point is labelled noise. -/
theorem C9_dbscan_minsamples_one_no_noise (pts : List (ℚ × ℚ)) (eps : ℚ)
    (hd : pts.all (fun p => pts.all (fun q => decide (dist2 p q < eps * eps))) = true) :
    dbscan pts eps 1 = List.replicate pts.length 0 := by
  apply dbscan_one_cluster
  intro p hp q hq
  have h1 := List.all_eq_true.mp hd p hp
  have h2 := List.all_eq_true.mp h1 q hq
  exact of_decide_eq_true h2

/-- Concrete witness for C9: two points at distance 5 with `eps = 6`,
`min_samples = 1` — both land in cluster 0. -/
theorem C9_dbscan_minsamples_one_no_noise_witness :
    [((0 : ℚ), (0 : ℚ)), ((3 : ℚ), (4 : ℚ))].all
      (fun p => [((0 : ℚ), (0 : ℚ)), ((3 : ℚ), (4 : ℚ))].all
        (fun q => decide (dist2 p q < 6 * 6))) = true ∧
    dbscan [((0 : ℚ), (0 : ℚ)), ((3 : ℚ), (4 : ℚ))] 6 1 = List.replicate 2 0 := by
  have hall : [((0 : ℚ), (0 : ℚ)), ((3 : ℚ), (4 : ℚ))].all
      (fun p => [((0 : ℚ), (0 : ℚ)), ((3 : ℚ), (4 : ℚ))].all
        (fun q => decide (dist2 p q < 6 * 6))) = true := by
    simp only [List.all_cons, List.all_nil, Bool.and_true, Bool.and_eq_true,
      decide_eq_true_eq, dist2]
    norm_num
  exact ⟨hall, C9_dbscan_minsamples_one_no_noise
    [((0 : ℚ), (0 : ℚ)), ((3 : ℚ), (4 : ℚ))] 6 hall⟩

/-! ### Convex hulls (`unary_union(...).convex_hull` of shapely) -/

/-- First-occurrence deduplication (the coordinate multiset of a shapely
union collapses duplicates). -/
def dedupFirst {α : Type} [DecidableEq α] (l : List α) : List α :=
  l.foldl (fun acc a => if a ∈ acc then acc else acc ++ [a]) []

/-- Lexicographic order on coordinates used by the monotone-chain hull. -/
def ptLE (p q : ℚ × ℚ) : Prop := p.1 < q.1 ∨ (p.1 = q.1 ∧ p.2 ≤ q.2)

instance decPtLE : DecidableRel ptLE := by
  intro p q
  unfold ptLE
  infer_instance

/-- Orientation test: cross product of `o→a` with `o→b`. -/
def cross (o a b : ℚ × ℚ) : ℚ :=
  (a.1 - o.1) * (b.2 - o.2) - (a.2 - o.2) * (b.1 - o.1)

/-- Drop chain points that make a non-left turn with the incoming point;
the accumulator holds the chain in reverse. -/
def popBad (p : ℚ × ℚ) : List (ℚ × ℚ) → List (ℚ × ℚ)
  | a :: b :: rest => if cross b a p ≤ 0 then popBad p (b :: rest) else a :: b :: rest
  | l => l

/-- One half (lower or upper) of the monotone-chain convex hull. -/
def hullHalf (ps : List (ℚ × ℚ)) : List (ℚ × ℚ) :=
  (ps.foldl (fun acc p => p :: popBad p acc) []).reverse

/-- `unary_union(points).convex_hull` of shapely: a point when the input
has a single distinct coordinate, a segment when the distinct points are
collinear, otherwise the convex polygon of the monotone-chain
construction.  (The empty branches are unreachable: every caller passes a
non-empty point list.) -/
def convexHull (pts : List (ℚ × ℚ)) : Geom :=
  match dedupFirst pts with
  | [] => Geom.point 0 0
  | [p] => Geom.point p.1 p.2
  | ps =>
    let sorted := List.insertionSort ptLE ps
    let ring := (hullHalf sorted).dropLast ++ (hullHalf sorted.reverse).dropLast
    match ring with
    | [] => Geom.point 0 0
    | [p] => Geom.point p.1 p.2
    | [p, q] => Geom.line p q
    | v :: vs => Geom.poly v vs

/-! ### `cluster_hail.py` main (lines 122–174) -/

/-- `sorted(int(x) for x in np.unique(labels) if x >= 0)`: the distinct
non-negative labels in increasing order. -/
def uniqLabels (labels : List ℤ) : List ℤ :=
  List.insertionSort (fun a b => a ≤ b) (labels.filter (fun x => decide (0 ≤ x))).dedup

/-- One output row of `cluster_hail.py` (`out_rows`); the time-aggregation
columns, which no claim mentions, are omitted. -/
structure HailRow where
  cluster_id : ℤ
  num_points : ℕ
  geometry : Geom
deriving DecidableEq

/-- `block = gdf[gdf.__label == cid]`: the points carrying label `cid`. -/
def hailBlock (pts : List (ℚ × ℚ)) (labels : List ℤ) (cid : ℤ) : List (ℚ × ℚ) :=
  ((pts.zip labels).filter (fun pl => decide (pl.2 = cid))).map Prod.fst

/-- Loop body of `cluster_hail.py` lines 147–170: one output row per
non-noise label. -/
def mkHailRow (pts : List (ℚ × ℚ)) (labels : List ℤ) (cid : ℤ) : HailRow :=
  { cluster_id := cid
    num_points := (hailBlock pts labels cid).length
    geometry := to_polygon (convexHull (hailBlock pts labels cid)) }

/-- `main` of `cluster_hail.py`, lines 139–170: label the points with
DBSCAN, then for each non-noise label (sorted; noise labels `< 0`
excluded) build one row from exactly the points carrying that label. -/
def hailRows (pts : List (ℚ × ℚ)) (eps : ℚ) (minPts : ℕ) : List HailRow :=
  (uniqLabels (dbscan pts eps minPts)).map (mkHailRow pts (dbscan pts eps minPts))

/-- `main` of `cluster_hail.py` as observed by its caller: `none` when
nothing is written (empty input, lines 127–129, or no non-noise clusters,
lines 172–174), otherwise `some` of the rows replacing the destination
table. -/
def clusterHailRun (pts : List (ℚ × ℚ)) (eps : ℚ) (minPts : ℕ) : Option (List HailRow) :=
  if pts.isEmpty then none
  else if (hailRows pts eps minPts).isEmpty then none
  else some (hailRows pts eps minPts)

/-! ### Counting lemmas for C5 -/

lemma sum_map_add_nat {α : Type} (f g : α → ℕ) :
    ∀ (D : List α), (D.map (fun c => f c + g c)).sum = (D.map f).sum + (D.map g).sum := by
  intro D
  induction D with
  | nil => rfl
  | cons d D ih =>
    simp only [List.map_cons, List.sum_cons, ih]
    omega

lemma sum_indicator_zero (a : ℤ) :
    ∀ (D : List ℤ), a ∉ D → (D.map (fun c => if a == c then 1 else 0)).sum = 0 := by
  intro D
  induction D with
  | nil => intro _; rfl
  | cons d D ih =>
    intro h
    have hda : ¬(a == d) = true := by
      simp only [beq_iff_eq]
      intro he
      exact h (he ▸ List.mem_cons_self a D)
    simp only [List.map_cons, List.sum_cons, if_neg hda,
      ih (fun hm => h (List.mem_cons_of_mem d hm))]

lemma sum_indicator_one (a : ℤ) :
    ∀ (D : List ℤ), D.Nodup → a ∈ D → (D.map (fun c => if a == c then 1 else 0)).sum = 1 := by
  intro D
  induction D with
  | nil => intro _ h; exact absurd h (List.not_mem_nil a)
  | cons d D ih =>
    intro hnd hmem
    obtain ⟨hd, hD⟩ := List.nodup_cons.mp hnd
    rcases List.mem_cons.mp hmem with rfl | hmem2
    · rw [List.map_cons, List.sum_cons, sum_indicator_zero a D hd]
      simp
    · have hda : ¬(a == d) = true := by
        simp only [beq_iff_eq]
        intro he
        exact hd (he ▸ hmem2)
      simp only [List.map_cons, List.sum_cons, if_neg hda, ih hD hmem2]

lemma sum_count_nodup (D : List ℤ) (hD : D.Nodup) :
    ∀ (M : List ℤ), (∀ c ∈ M, c ∈ D) → (D.map (fun c => M.count c)).sum = M.length := by
  intro M
  induction M with
  | nil => intro _; simp
  | cons a M ih =>
    intro hmem
    have hcount : ∀ c : ℤ, (a :: M).count c = M.count c + if a == c then 1 else 0 := by
      intro c
      rw [List.count_cons]
    have hmap : D.map (fun c => (a :: M).count c)
        = D.map (fun c => M.count c + if a == c then 1 else 0) :=
      List.map_congr_left (fun c _ => hcount c)
    rw [hmap, sum_map_add_nat]
    rw [ih (fun c hc => hmem c (List.mem_cons_of_mem a hc)),
      sum_indicator_one a D hD (hmem a (List.mem_cons_self a M))]
    simp

lemma count_filter_of_pos {p : ℤ → Bool} {c : ℤ} (hc : p c = true) :
    ∀ (M : List ℤ), (M.filter p).count c = M.count c := by
  intro M
  induction M with
  | nil => rfl
  | cons a M ih =>
    by_cases ha : p a = true
    · rw [List.filter_cons_of_pos ha, List.count_cons, List.count_cons, ih]
    · have hca : ¬(a == c) = true := by
        simp only [beq_iff_eq]
        intro he
        exact ha (by rw [he]; exact hc)
      rw [List.filter_cons_of_neg (by simpa using ha), ih, List.count_cons, if_neg hca,
        add_zero]

lemma zip_filter_count (c : ℤ) :
    ∀ (A : List (ℚ × ℚ)) (B : List ℤ), A.length = B.length →
      ((A.zip B).filter (fun pl => decide (pl.2 = c))).length = B.count c := by
  intro A
  induction A with
  | nil =>
    intro B hB
    have hB0 : B = [] := List.length_eq_zero.mp (by simpa using hB.symm)
    subst hB0
    rfl
  | cons a A ih =>
    intro B hB
    cases B with
    | nil => simp at hB
    | cons b B =>
      have hlen : A.length = B.length := by simpa using hB
      rw [List.zip_cons_cons]
      by_cases hbc : b = c
      · subst hbc
        rw [List.filter_cons_of_pos (by simp), List.length_cons, ih B hlen,
          List.count_cons]
        simp
      · have hcb : ¬(b == c) = true := by simpa using hbc
        rw [List.filter_cons_of_neg (by simpa using hbc), ih B hlen, List.count_cons,
          if_neg hcb, add_zero]

lemma hailBlock_length (pts : List (ℚ × ℚ)) (labels : List ℤ) (c : ℤ)
    (hlen : pts.length = labels.length) :
    (hailBlock pts labels c).length = labels.count c := by
  rw [hailBlock, List.length_map]
  exact zip_filter_count c pts labels hlen

lemma uniqLabels_perm_dedup (labels : List ℤ) :
    List.Perm (uniqLabels labels) (labels.filter (fun x => decide (0 ≤ x))).dedup :=
  List.perm_insertionSort _ _

lemma mem_uniqLabels {labels : List ℤ} {c : ℤ} (hc : c ∈ uniqLabels labels) :
    0 ≤ c := by
  have h1 : c ∈ (labels.filter (fun x => decide (0 ≤ x))).dedup :=
    (uniqLabels_perm_dedup labels).mem_iff.mp hc
  have h2 : c ∈ labels.filter (fun x => decide (0 ≤ x)) := List.mem_dedup.mp h1
  exact of_decide_eq_true (List.mem_filter.mp h2).2

/-- Shared counting helper: summing the label multiplicities over the
distinct non-negative labels and adding the noise entries accounts for
every label exactly once. -/
lemma uniqLabels_count_partition (labels : List ℤ) :
    ((uniqLabels labels).map (fun c => labels.count c)).sum
      + (labels.filter (fun x => decide (x < 0))).length = labels.length := by
  set F := labels.filter (fun x => decide (0 ≤ x)) with hF
  have hperm : List.Perm ((uniqLabels labels).map (fun c => labels.count c))
      (F.dedup.map (fun c => labels.count c)) :=
    (uniqLabels_perm_dedup labels).map _
  rw [hperm.sum_eq]
  have hcong : F.dedup.map (fun c => labels.count c) = F.dedup.map (fun c => F.count c) := by
    apply List.map_congr_left
    intro c hc
    have h2 : c ∈ F := List.mem_dedup.mp hc
    have h3 : decide ((0 : ℤ) ≤ c) = true := (List.mem_filter.mp h2).2
    rw [hF]
    rw [count_filter_of_pos h3 labels]
  rw [hcong, sum_count_nodup F.dedup (List.nodup_dedup F) F
    (fun c hc => List.mem_dedup.mpr hc)]
  have hsplit := List.length_eq_length_filter_add (l := labels) (fun x => decide (0 ≤ x))
  have hneg : labels.filter (fun x => !(decide (0 ≤ x)))
      = labels.filter (fun x => decide (x < 0)) := by
    apply List.filter_congr
    intro x _
    by_cases hx : (0 : ℤ) ≤ x
    · simp [hx, not_lt.mpr hx]
    · simp [hx, lt_of_not_ge hx]
  rw [hneg] at hsplit
  rw [← hF] at hsplit
  omega

/-- C5: every input point receives exactly one DBSCAN label (the label list
is index-aligned with the input), the cluster point counts plus the noise
count equal the total input count, no cluster id occurs twice, and every
output row is built from exactly the points carrying its (non-negative)
label — noise points (label `< 0`) are excluded from every hull and every
count. -/
theorem C5_label_partition_noise_excluded (pts : List (ℚ × ℚ)) (eps : ℚ) (minPts : ℕ) :
    (dbscan pts eps minPts).length = pts.length ∧
    ((hailRows pts eps minPts).map (fun r => r.num_points)).sum
      + ((dbscan pts eps minPts).filter (fun x => decide (x < 0))).length = pts.length ∧
    ((hailRows pts eps minPts).map (fun r => r.cluster_id)).Nodup ∧
    ∀ row ∈ hailRows pts eps minPts,
      0 ≤ row.cluster_id ∧
      row.num_points = (hailBlock pts (dbscan pts eps minPts) row.cluster_id).length ∧
      row.geometry = to_polygon (convexHull
        (hailBlock pts (dbscan pts eps minPts) row.cluster_id)) := by
  have hlen : pts.length = (dbscan pts eps minPts).length :=
    (dbscan_length pts eps minPts).symm
  refine ⟨dbscan_length pts eps minPts, ?_, ?_, ?_⟩
  · rw [hailRows, List.map_map]
    have hcong : (uniqLabels (dbscan pts eps minPts)).map
        ((fun r => r.num_points) ∘ mkHailRow pts (dbscan pts eps minPts))
        = (uniqLabels (dbscan pts eps minPts)).map
            (fun c => (dbscan pts eps minPts).count c) := by
      apply List.map_congr_left
      intro c _
      exact hailBlock_length pts (dbscan pts eps minPts) c hlen
    rw [hcong, uniqLabels_count_partition (dbscan pts eps minPts), dbscan_length]
  · rw [hailRows, List.map_map]
    have hid : (uniqLabels (dbscan pts eps minPts)).map
        ((fun r => r.cluster_id) ∘ mkHailRow pts (dbscan pts eps minPts))
        = (uniqLabels (dbscan pts eps minPts)).map id :=
      List.map_congr_left (fun c _ => rfl)
    rw [hid, List.map_id]
    exact ((uniqLabels_perm_dedup _).nodup_iff).mpr (List.nodup_dedup _)
  · intro row hrow
    rw [hailRows] at hrow
    obtain ⟨cid, hcid, rfl⟩ := List.mem_map.mp hrow
    exact ⟨mem_uniqLabels hcid, rfl, rfl⟩

/-! ### `cluster_addresses.py` main (lines 46–132) -/

/-- One address record (`id` plus point geometry). -/
structure Addr where
  id : ℤ
  x : ℚ
  y : ℚ
deriving DecidableEq

/-- One hail-cluster row as read back by `cluster_addresses.py`
(`cluster_id` plus its polygon geometry; the centroid is computed from the
geometry server-side). -/
structure HailSrcRow where
  cluster_id : ℤ
  geom : Geom
deriving DecidableEq

/-- The candidate fetch of lines 91–102: addresses intersecting the
centroid buffered by `buf`.  Shapely's circular buffer of a point is
contained in the closed disc of radius `buf` and is empty for a
non-positive radius, so a fetched address always lies within `buf` of the
centroid; the search region is modelled as that disc. -/
def candidatesFor (addrs : List Addr) (c : ℚ × ℚ) (buf : ℚ) : List Addr :=
  addrs.filter (fun a => decide (0 < buf) && decide (dist2 (a.x, a.y) c ≤ buf * buf))

/-- A non-noise address group of one hail cluster: the owning hail id, the
local DBSCAN label, and the member addresses. -/
structure SecGroup where
  hail_id : ℤ
  cid : ℤ
  members : List Addr
deriving DecidableEq

/-- Lines 107–115: DBSCAN the candidate addresses of one hail cluster and
group them by non-noise label (`groupby` iterates labels in sorted order;
label `< 0` is skipped). -/
def groupsOf (hid : ℤ) (cands : List Addr) (eps : ℚ) (minPts : ℕ) : List SecGroup :=
  (uniqLabels (dbscan (cands.map (fun a => (a.x, a.y))) eps minPts)).map (fun cid =>
    { hail_id := hid
      cid := cid
      members := ((cands.zip (dbscan (cands.map (fun a => (a.x, a.y))) eps minPts)).filter
        (fun pl => decide (pl.2 = cid))).map Prod.fst })

/-- Lines 91–115 for one hail row: fetch the candidates near the centroid
(`continue` when none), then cluster and group them. -/
def groupsForRow (r : HailSrcRow) (addrs : List Addr) (buf eps : ℚ) (minPts : ℕ) :
    List SecGroup :=
  if (candidatesFor addrs r.geom.centroidPt buf).isEmpty then []
  else groupsOf r.cluster_id (candidatesFor addrs r.geom.centroidPt buf) eps minPts

/-- One output record (lines 117–122). -/
structure SecRecord where
  hail_cluster_id : ℤ
  addr_cluster_id : ℤ
  num_addresses : ℕ
  geom : Geom
deriving DecidableEq

/-- Record construction of lines 116–122: the stored hull is the raw
convex hull of the group's points — `to_polygon` is not applied in this
script. -/
def mkSecRecord (g : SecGroup) : SecRecord :=
  { hail_cluster_id := g.hail_id
    addr_cluster_id := g.cid
    num_addresses := g.members.length
    geom := convexHull (g.members.map (fun a => (a.x, a.y))) }

def recordsForRow (r : HailSrcRow) (addrs : List Addr) (buf eps : ℚ) (minPts : ℕ) :
    List SecRecord :=
  (groupsForRow r addrs buf eps minPts).map mkSecRecord

/-- `main` of `cluster_addresses.py`: loop over the hail rows, appending
each row's records (rows with no candidates contribute nothing). -/
def addrClusters (rows : List HailSrcRow) (addrs : List Addr) (buf eps : ℚ)
    (minPts : ℕ) : List SecRecord :=
  rows.flatMap (fun r => recordsForRow r addrs buf eps minPts)

lemma groupsForRow_of_no_candidates {r : HailSrcRow} {addrs : List Addr} {buf eps : ℚ}
    {minPts : ℕ} (h : (candidatesFor addrs r.geom.centroidPt buf).isEmpty = true) :
    groupsForRow r addrs buf eps minPts = [] := by
  simp [groupsForRow, h]

/-- Shared helper: every member of every group produced for row `r` was
fetched from the buffered-centroid search region of `r`. -/
lemma group_members_in_candidates {r : HailSrcRow} {addrs : List Addr} {buf eps : ℚ}
    {minPts : ℕ} {g : SecGroup} {a : Addr}
    (hg : g ∈ groupsForRow r addrs buf eps minPts) (ha : a ∈ g.members) :
    a ∈ candidatesFor addrs r.geom.centroidPt buf := by
  rw [groupsForRow] at hg
  by_cases hc : (candidatesFor addrs r.geom.centroidPt buf).isEmpty = true
  · rw [if_pos hc] at hg
    exact absurd hg (List.not_mem_nil g)
  · rw [if_neg hc, groupsOf] at hg
    obtain ⟨cid, _, rfl⟩ := List.mem_map.mp hg
    simp only at ha
    obtain ⟨pl, hpl, rfl⟩ := List.mem_map.mp ha
    have hzip := List.mem_filter.mp hpl
    have := List.of_mem_zip hzip.1
    exact this.1

/-- C3: for every secondary cluster produced for a hail row, every member
address belongs to the candidate set fetched from the buffered-centroid
search region of that row, and lies within `buf` of the row's centroid
(squared distance at most `buf * buf`). -/
theorem C3_secondary_membership_within_buffer (r : HailSrcRow) (addrs : List Addr)
    (buf eps : ℚ) (minPts : ℕ) (g : SecGroup) (a : Addr)
    (hg : g ∈ groupsForRow r addrs buf eps minPts) (ha : a ∈ g.members) :
    a ∈ candidatesFor addrs r.geom.centroidPt buf ∧
    dist2 (a.x, a.y) r.geom.centroidPt ≤ buf * buf := by
  have hmem := group_members_in_candidates hg ha
  refine ⟨hmem, ?_⟩
  have := (List.mem_filter.mp hmem).2
  simp only [Bool.and_eq_true, decide_eq_true_eq] at this
  exact this.2

/-- C7: empty input is never an error.  The primary engine on an empty
point set writes nothing and returns normally, and the secondary engine
skips every hail row with zero candidates: its output equals the output on
just the rows that do have candidates, so processing continues and each
empty row contributes an empty result. -/
theorem C7_empty_input_not_error (eps eps2 : ℚ) (minPts minPts2 : ℕ)
    (rows : List HailSrcRow) (addrs : List Addr) (buf : ℚ) :
    clusterHailRun [] eps minPts = none ∧
    addrClusters rows addrs buf eps2 minPts2
      = addrClusters (rows.filter
          (fun r => !(candidatesFor addrs r.geom.centroidPt buf).isEmpty))
          addrs buf eps2 minPts2 := by
  constructor
  · rfl
  · induction rows with
    | nil => rfl
    | cons r rows ih =>
      by_cases hc : (candidatesFor addrs r.geom.centroidPt buf).isEmpty = true
      · rw [addrClusters, List.flatMap_cons, List.filter_cons_of_neg (by simp [hc])]
        rw [recordsForRow, groupsForRow_of_no_candidates hc]
        simpa [addrClusters] using ih
      · rw [addrClusters, List.flatMap_cons, List.filter_cons_of_pos (by simp [hc])]
        rw [addrClusters, List.flatMap_cons]
        rw [addrClusters] at ih
        rw [ih]
        rfl

/-! ### A concrete secondary-clustering run (one hail cluster, one address) -/

/-- Concrete address at the origin. -/
def cexAddr : Addr := { id := 1, x := 0, y := 0 }

/-- Concrete hail row whose geometry is the origin point. -/
def cexRow : HailSrcRow := { cluster_id := 7, geom := Geom.point 0 0 }

/-- The single group the secondary engine produces on the concrete run. -/
def cexGroup : SecGroup := { hail_id := 7, cid := 0, members := [cexAddr] }

/-- The single record the secondary engine stores on the concrete run: the
hull of the one-address group is the raw point, not a repaired polygon. -/
def cexRecord : SecRecord :=
  { hail_cluster_id := 7, addr_cluster_id := 0, num_addresses := 1, geom := Geom.point 0 0 }

lemma cex_centroid : cexRow.geom.centroidPt = ((0 : ℚ), (0 : ℚ)) := by
  simp [cexRow, Geom.centroidPt, Geom.ptsList]

lemma cex_candidates :
    candidatesFor [cexAddr] ((0 : ℚ), (0 : ℚ)) 1 = [cexAddr] := by
  rw [candidatesFor, List.filter_cons_of_pos, List.filter_nil]
  norm_num [cexAddr, dist2]

lemma cex_dbscan : dbscan [((0 : ℚ), (0 : ℚ))] 1 1 = [0] := by
  have h := dbscan_one_cluster [((0 : ℚ), (0 : ℚ))] 1 ?_
  · simpa using h
  · intro p hp q hq
    fin_cases hp
    fin_cases hq
    norm_num [dist2]

lemma cex_groups : groupsForRow cexRow [cexAddr] 1 1 1 = [cexGroup] := by
  rw [groupsForRow, cex_centroid, cex_candidates, if_neg (by simp)]
  rw [groupsOf]
  have hmap : [cexAddr].map (fun a => (a.x, a.y)) = [((0 : ℚ), (0 : ℚ))] := rfl
  rw [hmap, cex_dbscan]
  have hu : uniqLabels [0] = [0] := rfl
  rw [hu]
  simp [cexGroup, cexRow, cexAddr]

lemma cex_records : addrClusters [cexRow] [cexAddr] 1 1 1 = [cexRecord] := by
  rw [addrClusters, List.flatMap_cons, List.flatMap_nil, List.append_nil,
    recordsForRow, cex_groups, List.map_cons, List.map_nil]
  have : mkSecRecord cexGroup = cexRecord := by
    rw [mkSecRecord]
    have hhull : convexHull (cexGroup.members.map (fun a => (a.x, a.y)))
        = Geom.point 0 0 := rfl
    rw [hhull]
    simp [cexGroup, cexRecord, cexAddr]
  rw [this]

/-- Witness for C3 at the concrete run: the produced group's only member
was fetched from the buffered search region and lies within the buffer
radius of the owning centroid. -/
theorem C3_secondary_membership_within_buffer_witness :
    cexGroup ∈ groupsForRow cexRow [cexAddr] 1 1 1 ∧
    cexAddr ∈ cexGroup.members ∧
    cexAddr ∈ candidatesFor [cexAddr] cexRow.geom.centroidPt 1 ∧
    dist2 (cexAddr.x, cexAddr.y) cexRow.geom.centroidPt ≤ 1 * 1 := by
  have hg : cexGroup ∈ groupsForRow cexRow [cexAddr] 1 1 1 := by
    rw [cex_groups]
    exact List.mem_singleton.mpr rfl
  have ha : cexAddr ∈ cexGroup.members := by
    rw [cexGroup]
    exact List.mem_singleton.mpr rfl
  have h := C3_secondary_membership_within_buffer cexRow [cexAddr] 1 1 1 cexGroup cexAddr hg ha
  exact ⟨hg, ha, h.1, h.2⟩

/-- Counterexample to C4 as stated: on the concrete run the stored hull of
the singleton group is a zero-area point geometry, not a valid polygon of
positive area — the secondary script never applies the §4.1 repair. -/
theorem C4_secondary_hull_counterexample :
    ∃ rec ∈ addrClusters [cexRow] [cexAddr] 1 1 1,
      ¬(rec.geom.isPoly = true ∧ 0 < rec.geom.area) := by
  refine ⟨cexRecord, ?_, ?_⟩
  · rw [cex_records]
    exact List.mem_singleton.mpr rfl
  · intro h
    have := h.1
    simp [cexRecord, Geom.isPoly] at this

/-- C4 (amended): each stored SecondaryCluster record is keyed by the
owning hail cluster id and its local label, stores the member count, and
stores the *raw* convex hull of its group's member points — the §4.1
repair routine is not applied, so the stored geometry has positive area
only when the members are in general position (a singleton or collinear
group is stored as a zero-area point or line geometry). -/
theorem C4_secondary_hull_raw_amended (rows : List HailSrcRow) (addrs : List Addr)
    (buf eps : ℚ) (minPts : ℕ) :
    ∀ rec ∈ addrClusters rows addrs buf eps minPts,
      ∃ g, g ∈ rows.flatMap (fun r => groupsForRow r addrs buf eps minPts) ∧
        rec.hail_cluster_id = g.hail_id ∧
        rec.addr_cluster_id = g.cid ∧
        rec.num_addresses = g.members.length ∧
        rec.geom = convexHull (g.members.map (fun a => (a.x, a.y))) := by
  intro rec hrec
  rw [addrClusters] at hrec
  obtain ⟨r, hr, hrec2⟩ := List.mem_flatMap.mp hrec
  rw [recordsForRow] at hrec2
  obtain ⟨g, hgmem, rfl⟩ := List.mem_map.mp hrec2
  exact ⟨g, List.mem_flatMap.mpr ⟨r, hr, hgmem⟩, rfl, rfl, rfl, rfl⟩

/-- Witness for the amended C4 at the concrete run. -/
theorem C4_secondary_hull_raw_amended_witness :
    cexRecord ∈ addrClusters [cexRow] [cexAddr] 1 1 1 ∧
    ∃ g, g ∈ [cexRow].flatMap (fun r => groupsForRow r [cexAddr] 1 1 1) ∧
      cexRecord.hail_cluster_id = g.hail_id ∧
      cexRecord.addr_cluster_id = g.cid ∧
      cexRecord.num_addresses = g.members.length ∧
      cexRecord.geom = convexHull (g.members.map (fun a => (a.x, a.y))) := by
  have hmem : cexRecord ∈ addrClusters [cexRow] [cexAddr] 1 1 1 := by
    rw [cex_records]
    exact List.mem_singleton.mpr rfl
  exact ⟨hmem, C4_secondary_hull_raw_amended [cexRow] [cexAddr] 1 1 1 cexRecord hmem⟩

/-! ### Orchestrator (`orchestrate_pipeline.py`, `orchestrate_state` and `main`)

Dates are day ordinals (ℤ).  Table and view names are strings built from
the dataset, state code and date range; the dataset is fixed for a whole
invocation, so a name is modelled by its distinguishing parts.  The
clustering parameters (`eps`, buffers, …) are passed through to the
subprocesses verbatim and never influence the orchestrator's control flow,
so they are not part of this model. -/

/-- Names `orchestrate_state` creates or checks in the store. -/
inductive TName where
  | chunk (s e : ℤ)
  | combined (st : String) (s e : ℤ)
  | hailOut (st : String) (s e : ℤ)
  | stableAlias (st : String)
  | addrOut (st : String) (s e : ℤ)
deriving DecidableEq

/-- Step names recorded in `pipeline_run_log`
(`fetch`, `combine_swdi`, `cluster_hail`, `hail_view`, `cluster_addresses`,
`map_export`). -/
inductive StepName where
  | fetch
  | combine
  | clusterHail
  | hailView
  | clusterAddr
  | mapExport
deriving DecidableEq

/-- Statuses recorded in the log (`"OK"`, `"FAIL"`, `"MISS"`). -/
inductive LStatus where
  | ok
  | fail
  | miss
deriving DecidableEq

/-- The console messages of `orchestrate_state` that claims refer to. -/
inductive CMsg where
  | abandoned (st : String)
  | fetchWarn (s e : ℤ)
  | skipNote (t : TName)
  | combinedNote (n : ℕ)
deriving DecidableEq

/-- The persistent store (tables/views by name), the append-only
`pipeline_run_log` (step, status), and the console output. -/
structure Store where
  tables : List TName
  runLog : List (StepName × LStatus)
  console : List CMsg
deriving DecidableEq

/-- Outcome of one fetch subprocess when it actually runs: exit 0 with the
chunk table present afterwards (`ok`), non-zero exit (`fail`, caught and
logged, lines 185–188), or exit 0 with the expected table absent (`miss`,
lines 194–195). -/
inductive FetchOutcome where
  | ok
  | fail
  | miss
deriving DecidableEq

/-- What each subprocess would do if executed: the fetcher per chunk
index, and the three other scripts (`true` = exit 0 with output written). -/
structure World where
  fetchOutcome : ℕ → FetchOutcome
  clusterHailOk : Bool
  clusterAddrOk : Bool
  exportOk : Bool

/-- Observable events of one `orchestrate_state` run, in program order. -/
inductive Ev where
  | fetchSkip (s e : ℤ)
  | fetchOk (s e : ℤ)
  | fetchFail (s e : ℤ)
  | fetchMiss (s e : ℤ)
  | abandon
  | combineView
  | hailSkip
  | hailRun
  | aliasView
  | addrSkip
  | addrRun
  | mapExport
deriving DecidableEq

/-- Subprocess failures that `run()` raises out of `orchestrate_state`
(they are caught per state in `main`). -/
inductive PErr where
  | hailFail
  | addrFail
  | exportFail
deriving DecidableEq

/-- Fixed step position in the pipeline order acquire → combine →
primary-cluster → alias → secondary-cluster → export. -/
def stepIdx : Ev → ℕ
  | .fetchSkip _ _ => 0
  | .fetchOk _ _ => 0
  | .fetchFail _ _ => 0
  | .fetchMiss _ _ => 0
  | .abandon => 1
  | .combineView => 2
  | .hailSkip => 3
  | .hailRun => 3
  | .aliasView => 4
  | .addrSkip => 5
  | .addrRun => 5
  | .mapExport => 6

/-- An event that re-executed a step and rewrote its output. -/
def Ev.isWrite : Ev → Bool
  | .fetchOk _ _ => true
  | .combineView => true
  | .hailRun => true
  | .aliasView => true
  | .addrRun => true
  | .mapExport => true
  | _ => false

/-- A sub-chunk counted as acquired (freshly fetched, or already present
and skipped). -/
def Ev.isFetchSucc : Ev → Bool
  | .fetchSkip _ _ => true
  | .fetchOk _ _ => true
  | _ => false

def writesOf (evs : List Ev) : ℕ := (evs.filter Ev.isWrite).length

/-- Ensure a name exists (the net effect of `CREATE VIEW` after
`DROP VIEW IF EXISTS`, of `CREATE OR REPLACE VIEW`, and of a subprocess
that writes its destination table). -/
def addTable (t : TName) (l : List TName) : List TName :=
  if t ∈ l then l else t :: l

/-- Accumulator of the fetch loop (lines 169–195): store so far, events so
far, and `fetched_tables`. -/
structure FetchRes where
  store : Store
  evs : List Ev
  fetched : List TName
deriving DecidableEq

/-- One iteration of the fetch loop for chunk `ic = (index, (s, e))`:
skip when the chunk table exists and `force` is unset (no log entry);
otherwise run the fetcher and record `OK`/`FAIL`/`MISS`. -/
def fetchChunk (w : World) (force : Bool) (acc : FetchRes) (ic : ℕ × (ℤ × ℤ)) : FetchRes :=
  if TName.chunk ic.2.1 ic.2.2 ∈ acc.store.tables ∧ force = false then
    { acc with
      evs := acc.evs ++ [Ev.fetchSkip ic.2.1 ic.2.2]
      fetched := acc.fetched ++ [TName.chunk ic.2.1 ic.2.2] }
  else
    match w.fetchOutcome ic.1 with
    | .ok =>
      { store :=
          { acc.store with
            tables := addTable (TName.chunk ic.2.1 ic.2.2) acc.store.tables
            runLog := acc.store.runLog ++ [(StepName.fetch, LStatus.ok)] }
        evs := acc.evs ++ [Ev.fetchOk ic.2.1 ic.2.2]
        fetched := acc.fetched ++ [TName.chunk ic.2.1 ic.2.2] }
    | .fail =>
      { store :=
          { acc.store with
            runLog := acc.store.runLog ++ [(StepName.fetch, LStatus.fail)]
            console := acc.store.console ++ [CMsg.fetchWarn ic.2.1 ic.2.2] }
        evs := acc.evs ++ [Ev.fetchFail ic.2.1 ic.2.2]
        fetched := acc.fetched }
    | .miss =>
      { store := { acc.store with runLog := acc.store.runLog ++ [(StepName.fetch, LStatus.miss)] }
        evs := acc.evs ++ [Ev.fetchMiss ic.2.1 ic.2.2]
        fetched := acc.fetched }

/-- Recursion over the chunk list, carrying the chunk index. -/
def fetchLoop (w : World) (force : Bool) : ℕ → List (ℤ × ℤ) → FetchRes → FetchRes
  | _, [], acc => acc
  | i, c :: rest, acc => fetchLoop w force (i + 1) rest (fetchChunk w force acc (i, c))

/-- The whole fetch loop over the date chunks. -/
def fetchPhase (chunks : List (ℤ × ℤ)) (w : World) (force : Bool) (st : Store) : FetchRes :=
  fetchLoop w force 0 chunks { store := st, evs := [], fetched := [] }

/-- Result of the rest of the pipeline: final store, events, and the
uncaught subprocess error, if any. -/
structure OrchRes where
  store : Store
  evs : List Ev
  err : Option PErr
deriving DecidableEq

/-- Sequencing: a raised error stops the pipeline. -/
def seqRes (r : OrchRes) (f : Store → OrchRes) : OrchRes :=
  match r.err with
  | some _ => r
  | none =>
    { store := (f r.store).store
      evs := r.evs ++ (f r.store).evs
      err := (f r.store).err }

/-- Map export (lines 254–264): always runs when reached. -/
def exportStep (w : World) (st : Store) : OrchRes :=
  if w.exportOk then
    { store := { st with runLog := st.runLog ++ [(StepName.mapExport, LStatus.ok)] }
      evs := [Ev.mapExport]
      err := none }
  else
    { store := st, evs := [], err := some PErr.exportFail }

/-- Address clustering (lines 238–252): guarded by output existence. -/
def addrStep (stCode : String) (s e : ℤ) (w : World) (force : Bool) (st : Store) : OrchRes :=
  if TName.addrOut stCode s e ∈ st.tables ∧ force = false then
    seqRes
      { store := { st with console := st.console ++ [CMsg.skipNote (TName.addrOut stCode s e)] }
        evs := [Ev.addrSkip]
        err := none }
      (exportStep w)
  else if w.clusterAddrOk then
    seqRes
      { store :=
          { st with
            tables := addTable (TName.addrOut stCode s e) st.tables
            runLog := st.runLog ++ [(StepName.clusterAddr, LStatus.ok)] }
        evs := [Ev.addrRun]
        err := none }
      (exportStep w)
  else
    { store := st, evs := [], err := some PErr.addrFail }

/-- Stable alias view (lines 229–236): always re-created when reached. -/
def aliasStep (stCode : String) (s e : ℤ) (w : World) (force : Bool) (st : Store) : OrchRes :=
  seqRes
    { store :=
        { st with
          tables := addTable (TName.stableAlias stCode) st.tables
          runLog := st.runLog ++ [(StepName.hailView, LStatus.ok)] }
      evs := [Ev.aliasView]
      err := none }
    (addrStep stCode s e w force)

/-- Hail clustering (lines 215–227): guarded by output existence. -/
def hailStep (stCode : String) (s e : ℤ) (w : World) (force : Bool) (st : Store) : OrchRes :=
  if TName.hailOut stCode s e ∈ st.tables ∧ force = false then
    seqRes
      { store := { st with console := st.console ++ [CMsg.skipNote (TName.hailOut stCode s e)] }
        evs := [Ev.hailSkip]
        err := none }
      (aliasStep stCode s e w force)
  else if w.clusterHailOk then
    seqRes
      { store :=
          { st with
            tables := addTable (TName.hailOut stCode s e) st.tables
            runLog := st.runLog ++ [(StepName.clusterHail, LStatus.ok)] }
        evs := [Ev.hailRun]
        err := none }
      (aliasStep stCode s e w force)
  else
    { store := st, evs := [], err := some PErr.hailFail }

/-- Combined view (lines 201–213): dedup the fetched names, keep only the
existing ones, and unconditionally re-create the union view. -/
def combineStep (stCode : String) (s e : ℤ) (w : World) (force : Bool) (st : Store)
    (fetched : List TName) : OrchRes :=
  seqRes
    { store :=
        { st with
          tables := addTable (TName.combined stCode s e) st.tables
          runLog := st.runLog ++ [(StepName.combine, LStatus.ok)]
          console := st.console
            ++ [CMsg.combinedNote
                  (dedupFirst (fetched.filter (fun t => decide (t ∈ st.tables)))).length] }
      evs := [Ev.combineView]
      err := none }
    (hailStep stCode s e w force)

/-- Lines 197 onwards: abandon the partition when nothing was acquired
(console message, lines 197–199, then `return`), otherwise run
combine → hail cluster → alias → address cluster → export. -/
def orchAfterFetch (stCode : String) (s e : ℤ) (w : World) (force : Bool)
    (fr : FetchRes) : OrchRes :=
  if fr.fetched.isEmpty then
    { store := { fr.store with console := fr.store.console ++ [CMsg.abandoned stCode] }
      evs := fr.evs ++ [Ev.abandon]
      err := none }
  else
    { store := (combineStep stCode s e w force fr.store fr.fetched).store
      evs := fr.evs ++ (combineStep stCode s e w force fr.store fr.fetched).evs
      err := (combineStep stCode s e w force fr.store fr.fetched).err }

/-- `orchestrate_state` (lines 136–264): fetch the chunks, then the rest
of the pipeline. -/
def orchestrateState (stCode : String) (start e chunkDays : ℤ) (w : World) (force : Bool)
    (st : Store) : OrchRes :=
  orchAfterFetch stCode start e w force (fetchPhase (split_dates start e chunkDays) w force st)

/-- The states with a configured bounding box (`STATE_BBOX`). -/
def STATE_BBOX_states : List String := ["GA", "IN", "OH", "KY"]

/-- Result of `main`: the process exit code, the final store, and the per
state event lists. -/
structure MainRes where
  exitCode : ℕ
  store : Store
  evsPerState : List (String × List Ev)

/-- The per-state loop of `main` (lines 308–326): every exception from
`orchestrate_state` is caught and printed — except the `SystemExit` raised
for a state with no configured bounding box (line 154), which is not an
`Exception` and terminates the process with exit code 1. -/
def mainLoop (w : String → World) (force : Bool) (start e chunkDays : ℤ) :
    List String → Store → MainRes
  | [], st => { exitCode := 0, store := st, evsPerState := [] }
  | s :: rest, st =>
    if s ∈ STATE_BBOX_states then
      { exitCode := (mainLoop w force start e chunkDays rest
          (orchestrateState s start e chunkDays (w s) force st).store).exitCode
        store := (mainLoop w force start e chunkDays rest
          (orchestrateState s start e chunkDays (w s) force st).store).store
        evsPerState := (s, (orchestrateState s start e chunkDays (w s) force st).evs)
          :: (mainLoop w force start e chunkDays rest
              (orchestrateState s start e chunkDays (w s) force st).store).evsPerState }
    else
      { exitCode := 1, store := st, evsPerState := [] }

/-- `main` (lines 267–330): date parsing and argument validation exit with
code 1 (`SystemExit`), a missing `DATABASE_URL` exits with code 2
(`engine_or_die`), and otherwise the states are processed in order with
all per-state errors caught. -/
def mainRun (dbSet : Bool) (datesValid : Bool) (start e chunkDays : ℤ)
    (states : List String) (w : String → World) (force : Bool) (st0 : Store) : MainRes :=
  if datesValid = false then { exitCode := 1, store := st0, evsPerState := [] }
  else if e ≤ start then { exitCode := 1, store := st0, evsPerState := [] }
  else if states.isEmpty then { exitCode := 1, store := st0, evsPerState := [] }
  else if dbSet = false then { exitCode := 2, store := st0, evsPerState := [] }
  else mainLoop w force start e chunkDays states st0

/-- A world where every subprocess succeeds. -/
def allOkWorld : World :=
  { fetchOutcome := fun _ => FetchOutcome.ok
    clusterHailOk := true
    clusterAddrOk := true
    exportOk := true }

/-- A world where every fetch sub-chunk fails (total acquisition failure)
while the other subprocesses would succeed. -/
def allFetchFailWorld : World :=
  { fetchOutcome := fun _ => FetchOutcome.fail
    clusterHailOk := true
    clusterAddrOk := true
    exportOk := true }

/-- The empty persistent store. -/
def emptyStore : Store := { tables := [], runLog := [], console := [] }

/-! ### Orchestrator lemmas -/

lemma split_dates_ne_nil {start e : ℤ} (span : ℤ) (h : start < e) :
    split_dates start e span ≠ [] := by
  rw [split_dates]
  have h1 : (e - start).toNat = ((e - start).toNat - 1) + 1 := by omega
  rw [h1, splitDatesAux, if_pos h]
  simp

lemma mem_addTable {t u : TName} {l : List TName} (h : t ∈ l) : t ∈ addTable u l := by
  rw [addTable]
  split
  · exact h
  · exact List.mem_cons_of_mem u h

lemma self_mem_addTable (t : TName) (l : List TName) : t ∈ addTable t l := by
  rw [addTable]
  split
  · assumption
  · exact List.mem_cons_self t l

lemma fetchChunk_tables_mono {w : World} {force : Bool} {acc : FetchRes}
    {ic : ℕ × (ℤ × ℤ)} {t : TName} (h : t ∈ acc.store.tables) :
    t ∈ (fetchChunk w force acc ic).store.tables := by
  rw [fetchChunk]
  split
  · exact h
  · split
    · exact mem_addTable h
    · exact h
    · exact h

lemma fetchLoop_tables_mono (w : World) (force : Bool) :
    ∀ (l : List (ℤ × ℤ)) (i : ℕ) (acc : FetchRes) (t : TName),
      t ∈ acc.store.tables → t ∈ (fetchLoop w force i l acc).store.tables := by
  intro l
  induction l with
  | nil => intro i acc t h; exact h
  | cons c rest ih =>
    intro i acc t h
    exact ih (i + 1) _ t (fetchChunk_tables_mono h)

lemma fetchLoop_chunk_mem (w : World) (force : Bool) :
    ∀ (l : List (ℤ × ℤ)) (i : ℕ) (acc : FetchRes),
      (∀ k, k < l.length → w.fetchOutcome (i + k) = FetchOutcome.ok) →
      ∀ c ∈ l, TName.chunk c.1 c.2 ∈ (fetchLoop w force i l acc).store.tables := by
  intro l
  induction l with
  | nil => intro i acc _ c hc; exact absurd hc (List.not_mem_nil c)
  | cons d rest ih =>
    intro i acc hok c hc
    rcases List.mem_cons.mp hc with rfl | hc2
    · have hmem : TName.chunk c.1 c.2 ∈ (fetchChunk w force acc (i, c)).store.tables := by
        rw [fetchChunk]
        split
        · next hcond => exact hcond.1
        · have h0 := hok 0 (by simp)
          rw [Nat.add_zero] at h0
          simp only [h0]
          exact self_mem_addTable _ _
      exact fetchLoop_tables_mono w force rest (i + 1) _ _ hmem
    · refine ih (i + 1) _ ?_ c hc2
      intro k hk
      have h2 := hok (k + 1) (by simpa [List.length_cons] using Nat.succ_lt_succ hk)
      have h3 : i + (k + 1) = i + 1 + k := by omega
      rw [h3] at h2
      exact h2

lemma fetchChunk_fetched_nonempty {w : World} {force : Bool} {acc : FetchRes}
    {ic : ℕ × (ℤ × ℤ)} (h : acc.fetched ≠ []) :
    (fetchChunk w force acc ic).fetched ≠ [] := by
  rw [fetchChunk]
  split
  · simp
  · split
    · simp
    · exact h
    · exact h

lemma fetchLoop_fetched_nonempty (w : World) (force : Bool) :
    ∀ (l : List (ℤ × ℤ)) (i : ℕ) (acc : FetchRes),
      acc.fetched ≠ [] → (fetchLoop w force i l acc).fetched ≠ [] := by
  intro l
  induction l with
  | nil => intro i acc h; exact h
  | cons c rest ih =>
    intro i acc h
    exact ih (i + 1) _ (fetchChunk_fetched_nonempty h)

lemma fetchLoop_fetched_ne_nil_of_ok (w : World) (force : Bool) (l : List (ℤ × ℤ))
    (i : ℕ) (acc : FetchRes) (hne : l ≠ [])
    (hok : ∀ k, k < l.length → w.fetchOutcome (i + k) = FetchOutcome.ok) :
    (fetchLoop w force i l acc).fetched ≠ [] := by
  cases l with
  | nil => exact absurd rfl hne
  | cons c rest =>
    show (fetchLoop w force (i + 1) rest (fetchChunk w force acc (i, c))).fetched ≠ []
    apply fetchLoop_fetched_nonempty
    rw [fetchChunk]
    split
    · simp
    · have h0 := hok 0 (by simp)
      rw [Nat.add_zero] at h0
      simp only [h0]
      simp

lemma fetchLoop_all_skip (w : World) :
    ∀ (l : List (ℤ × ℤ)) (i : ℕ) (st : Store) (evs0 : List Ev) (f0 : List TName),
      (∀ c ∈ l, TName.chunk c.1 c.2 ∈ st.tables) →
      fetchLoop w false i l { store := st, evs := evs0, fetched := f0 }
        = { store := st
            evs := evs0 ++ l.map (fun c => Ev.fetchSkip c.1 c.2)
            fetched := f0 ++ l.map (fun c => TName.chunk c.1 c.2) } := by
  intro l
  induction l with
  | nil => intro i st evs0 f0 _; simp [fetchLoop]
  | cons c rest ih =>
    intro i st evs0 f0 hmem
    show fetchLoop w false (i + 1) rest
        (fetchChunk w false { store := st, evs := evs0, fetched := f0 } (i, c)) = _
    have hstep : fetchChunk w false { store := st, evs := evs0, fetched := f0 } (i, c)
        = { store := st
            evs := evs0 ++ [Ev.fetchSkip c.1 c.2]
            fetched := f0 ++ [TName.chunk c.1 c.2] } := by
      rw [fetchChunk, if_pos ⟨hmem c (List.mem_cons_self c rest), rfl⟩]
    rw [hstep, ih (i + 1) st _ _ (fun d hd => hmem d (List.mem_cons_of_mem c hd))]
    simp

lemma seqRes_evs_of_none {r : OrchRes} {f : Store → OrchRes} (h : r.err = none) :
    (seqRes r f).evs = r.evs ++ (f r.store).evs := by
  simp [seqRes, h]

lemma seqRes_store_of_none {r : OrchRes} {f : Store → OrchRes} (h : r.err = none) :
    (seqRes r f).store = (f r.store).store := by
  simp [seqRes, h]

lemma exportStep_tables {w : World} {st : Store} {t : TName} (h : t ∈ st.tables) :
    t ∈ (exportStep w st).store.tables := by
  rw [exportStep]
  split
  · exact h
  · exact h

lemma exportStep_evs {w : World} {st : Store} (he : w.exportOk = true) :
    (exportStep w st).evs = [Ev.mapExport] := by
  simp [exportStep, he]

lemma addrStep_tables {stCode : String} {s e : ℤ} {w : World} {force : Bool}
    {st : Store} {t : TName} (h : t ∈ st.tables) :
    t ∈ (addrStep stCode s e w force st).store.tables := by
  rw [addrStep]
  split
  · rw [seqRes_store_of_none rfl]
    exact exportStep_tables h
  · split
    · rw [seqRes_store_of_none rfl]
      exact exportStep_tables (mem_addTable h)
    · exact h

lemma addrStep_has_addr {stCode : String} {s e : ℤ} {w : World} {force : Bool}
    {st : Store} (hok : w.clusterAddrOk = true) :
    TName.addrOut stCode s e ∈ (addrStep stCode s e w force st).store.tables := by
  rw [addrStep]
  split
  · next hguard =>
    rw [seqRes_store_of_none rfl]
    exact exportStep_tables hguard.1
  · rw [seqRes_store_of_none rfl]
    exact exportStep_tables (self_mem_addTable _ _)

lemma addrStep_skip_evs {stCode : String} {s e : ℤ} {w : World} {st : Store}
    (hg : TName.addrOut stCode s e ∈ st.tables) (he : w.exportOk = true) :
    (addrStep stCode s e w false st).evs = [Ev.addrSkip, Ev.mapExport] := by
  rw [addrStep, if_pos ⟨hg, rfl⟩, seqRes_evs_of_none rfl, exportStep_evs he]
  rfl

lemma aliasStep_tables {stCode : String} {s e : ℤ} {w : World} {force : Bool}
    {st : Store} {t : TName} (h : t ∈ st.tables) :
    t ∈ (aliasStep stCode s e w force st).store.tables := by
  rw [aliasStep, seqRes_store_of_none rfl]
  exact addrStep_tables (mem_addTable h)

lemma aliasStep_has_addr {stCode : String} {s e : ℤ} {w : World} {force : Bool}
    {st : Store} (hok : w.clusterAddrOk = true) :
    TName.addrOut stCode s e ∈ (aliasStep stCode s e w force st).store.tables := by
  rw [aliasStep, seqRes_store_of_none rfl]
  exact addrStep_has_addr hok

lemma aliasStep_skip_evs {stCode : String} {s e : ℤ} {w : World} {st : Store}
    (hg : TName.addrOut stCode s e ∈ st.tables) (he : w.exportOk = true) :
    (aliasStep stCode s e w false st).evs = [Ev.aliasView, Ev.addrSkip, Ev.mapExport] := by
  rw [aliasStep, seqRes_evs_of_none rfl, addrStep_skip_evs (mem_addTable hg) he]
  rfl

lemma hailStep_tables {stCode : String} {s e : ℤ} {w : World} {force : Bool}
    {st : Store} {t : TName} (h : t ∈ st.tables) :
    t ∈ (hailStep stCode s e w force st).store.tables := by
  rw [hailStep]
  split
  · rw [seqRes_store_of_none rfl]
    exact aliasStep_tables h
  · split
    · rw [seqRes_store_of_none rfl]
      exact aliasStep_tables (mem_addTable h)
    · exact h

lemma hailStep_has_hail {stCode : String} {s e : ℤ} {w : World} {force : Bool}
    {st : Store} (hok : w.clusterHailOk = true) :
    TName.hailOut stCode s e ∈ (hailStep stCode s e w force st).store.tables := by
  rw [hailStep]
  split
  · next hguard =>
    rw [seqRes_store_of_none rfl]
    exact aliasStep_tables hguard.1
  · rw [seqRes_store_of_none rfl]
    exact aliasStep_tables (self_mem_addTable _ _)

lemma hailStep_has_addr {stCode : String} {s e : ℤ} {w : World} {force : Bool}
    {st : Store} (hokh : w.clusterHailOk = true) (hoka : w.clusterAddrOk = true) :
    TName.addrOut stCode s e ∈ (hailStep stCode s e w force st).store.tables := by
  rw [hailStep]
  split
  · rw [seqRes_store_of_none rfl]
    exact aliasStep_has_addr hoka
  · rw [seqRes_store_of_none rfl]
    exact aliasStep_has_addr hoka

lemma hailStep_skip_evs {stCode : String} {s e : ℤ} {w : World} {st : Store}
    (hg : TName.hailOut stCode s e ∈ st.tables)
    (hga : TName.addrOut stCode s e ∈ st.tables) (he : w.exportOk = true) :
    (hailStep stCode s e w false st).evs
      = [Ev.hailSkip, Ev.aliasView, Ev.addrSkip, Ev.mapExport] := by
  rw [hailStep, if_pos ⟨hg, rfl⟩, seqRes_evs_of_none rfl]
  have h2 : TName.addrOut stCode s e
      ∈ ({ st with console := st.console ++ [CMsg.skipNote (TName.hailOut stCode s e)] }
          : Store).tables := hga
  rw [aliasStep_skip_evs h2 he]
  rfl

lemma combineStep_tables {stCode : String} {s e : ℤ} {w : World} {force : Bool}
    {st : Store} {fetched : List TName} {t : TName} (h : t ∈ st.tables) :
    t ∈ (combineStep stCode s e w force st fetched).store.tables := by
  rw [combineStep, seqRes_store_of_none rfl]
  exact hailStep_tables (mem_addTable h)

lemma combineStep_has_hail {stCode : String} {s e : ℤ} {w : World} {force : Bool}
    {st : Store} {fetched : List TName} (hok : w.clusterHailOk = true) :
    TName.hailOut stCode s e ∈ (combineStep stCode s e w force st fetched).store.tables := by
  rw [combineStep, seqRes_store_of_none rfl]
  exact hailStep_has_hail hok

lemma combineStep_has_addr {stCode : String} {s e : ℤ} {w : World} {force : Bool}
    {st : Store} {fetched : List TName}
    (hokh : w.clusterHailOk = true) (hoka : w.clusterAddrOk = true) :
    TName.addrOut stCode s e ∈ (combineStep stCode s e w force st fetched).store.tables := by
  rw [combineStep, seqRes_store_of_none rfl]
  exact hailStep_has_addr hokh hoka

lemma combineStep_skip_evs {stCode : String} {s e : ℤ} {w : World} {st : Store}
    {fetched : List TName}
    (hg : TName.hailOut stCode s e ∈ st.tables)
    (hga : TName.addrOut stCode s e ∈ st.tables) (he : w.exportOk = true) :
    (combineStep stCode s e w false st fetched).evs
      = [Ev.combineView, Ev.hailSkip, Ev.aliasView, Ev.addrSkip, Ev.mapExport] := by
  rw [combineStep, seqRes_evs_of_none rfl]
  have h2 : TName.hailOut stCode s e
      ∈ ({ st with
            tables := addTable (TName.combined stCode s e) st.tables
            runLog := st.runLog ++ [(StepName.combine, LStatus.ok)]
            console := st.console
              ++ [CMsg.combinedNote
                    (dedupFirst (fetched.filter (fun t => decide (t ∈ st.tables)))).length] }
          : Store).tables := mem_addTable hg
  have h3 : TName.addrOut stCode s e
      ∈ ({ st with
            tables := addTable (TName.combined stCode s e) st.tables
            runLog := st.runLog ++ [(StepName.combine, LStatus.ok)]
            console := st.console
              ++ [CMsg.combinedNote
                    (dedupFirst (fetched.filter (fun t => decide (t ∈ st.tables)))).length] }
          : Store).tables := mem_addTable hga
  rw [hailStep_skip_evs h2 h3 he]
  rfl

/-- After a fully successful first run, the chunk tables and both cluster
output tables exist in the store. -/
lemma orchestrate_run1_tables (stCode : String) (start e cd : ℤ) (w : World) (st : Store)
    (hd : start < e)
    (hok : ∀ k, k < (split_dates start e cd).length → w.fetchOutcome k = FetchOutcome.ok)
    (hh : w.clusterHailOk = true) (ha : w.clusterAddrOk = true) :
    (∀ c ∈ split_dates start e cd,
      TName.chunk c.1 c.2 ∈ (orchestrateState stCode start e cd w false st).store.tables) ∧
    TName.hailOut stCode start e ∈ (orchestrateState stCode start e cd w false st).store.tables ∧
    TName.addrOut stCode start e ∈ (orchestrateState stCode start e cd w false st).store.tables := by
  have hne : (fetchPhase (split_dates start e cd) w false st).fetched ≠ [] := by
    rw [fetchPhase]
    exact fetchLoop_fetched_ne_nil_of_ok w false _ 0 _ (split_dates_ne_nil cd hd)
      (fun k hk => by simpa using hok k hk)
  rw [orchestrateState, orchAfterFetch,
    if_neg (by rw [List.isEmpty_iff]; exact hne)]
  refine ⟨?_, combineStep_has_hail hh, combineStep_has_addr hh ha⟩
  intro c hc
  apply combineStep_tables
  rw [fetchPhase]
  exact fetchLoop_chunk_mem w false (split_dates start e cd) 0 _
    (fun k hk => by simpa using hok k hk) c hc

lemma filter_isWrite_skips (l : List (ℤ × ℤ)) :
    (l.map (fun c => Ev.fetchSkip c.1 c.2)).filter Ev.isWrite = [] := by
  induction l with
  | nil => rfl
  | cons c rest ih =>
    rw [List.map_cons, List.filter_cons_of_neg (by simp [Ev.isWrite]), ih]

/-- C2 (amended): on a second identical run with no `force` flag, the three
guarded steps (per-chunk fetch, hail clustering, address clustering) all
fire their output-existence guards and are skipped, but the combine-view,
alias-view and map-export steps have no guard: they re-execute and rewrite
their outputs, so the second run performs exactly three redundant writes
rather than zero, and the skipped steps record no log entry (they print a
console note instead of a "skipped" status). -/
theorem C2_second_run_guarded_steps_skipped (stCode : String) (start e cd : ℤ)
    (w : World) (st0 : Store)
    (hd : start < e) (hcd : 1 ≤ cd)
    (hf : ((List.range (split_dates start e cd).length).all
      (fun j => decide (w.fetchOutcome j = FetchOutcome.ok))) = true)
    (hh : w.clusterHailOk = true) (ha : w.clusterAddrOk = true) (he : w.exportOk = true) :
    (orchestrateState stCode start e cd w false
        (orchestrateState stCode start e cd w false st0).store).evs
      = (split_dates start e cd).map (fun c => Ev.fetchSkip c.1 c.2)
        ++ [Ev.combineView, Ev.hailSkip, Ev.aliasView, Ev.addrSkip, Ev.mapExport] ∧
    writesOf (orchestrateState stCode start e cd w false
        (orchestrateState stCode start e cd w false st0).store).evs = 3 := by
  have hok : ∀ k, k < (split_dates start e cd).length → w.fetchOutcome k = FetchOutcome.ok := by
    intro k hk
    exact of_decide_eq_true (List.all_eq_true.mp hf k (List.mem_range.mpr hk))
  obtain ⟨hch, hhail, haddr⟩ := orchestrate_run1_tables stCode start e cd w st0 hd hok hh ha
  have hfl : fetchPhase (split_dates start e cd) w false
      (orchestrateState stCode start e cd w false st0).store
      = { store := (orchestrateState stCode start e cd w false st0).store
          evs := (split_dates start e cd).map (fun c => Ev.fetchSkip c.1 c.2)
          fetched := (split_dates start e cd).map (fun c => TName.chunk c.1 c.2) } := by
    rw [fetchPhase, fetchLoop_all_skip w (split_dates start e cd) 0 _ [] [] hch]
    simp
  have hne2 : ((split_dates start e cd).map (fun c => TName.chunk c.1 c.2)) ≠ [] := by
    simpa using split_dates_ne_nil cd hd
  have htrace : (orchestrateState stCode start e cd w false
      (orchestrateState stCode start e cd w false st0).store).evs
      = (split_dates start e cd).map (fun c => Ev.fetchSkip c.1 c.2)
        ++ [Ev.combineView, Ev.hailSkip, Ev.aliasView, Ev.addrSkip, Ev.mapExport] := by
    rw [orchestrateState, hfl, orchAfterFetch,
      if_neg (by rw [List.isEmpty_iff]; exact hne2)]
    rw [combineStep_skip_evs hhail haddr he]
  refine ⟨htrace, ?_⟩
  rw [writesOf, htrace, List.filter_append, filter_isWrite_skips]
  rfl

/-- Counterexample to C2 as stated: a concrete second run still performs
writes (the combine view is re-created) and its trace is not all-skips. -/
theorem C2_second_run_counterexample :
    Ev.combineView ∈ (orchestrateState "GA" 0 1 1 allOkWorld false
      (orchestrateState "GA" 0 1 1 allOkWorld false emptyStore).store).evs ∧
    writesOf (orchestrateState "GA" 0 1 1 allOkWorld false
      (orchestrateState "GA" 0 1 1 allOkWorld false emptyStore).store).evs ≠ 0 := by
  decide

/-- Witness for the amended C2 at a concrete partition. -/
theorem C2_second_run_guarded_steps_skipped_witness :
    ((0 : ℤ) < 1) ∧ ((1 : ℤ) ≤ 1) ∧
    ((List.range (split_dates 0 1 1).length).all
      (fun j => decide (allOkWorld.fetchOutcome j = FetchOutcome.ok)) = true) ∧
    ((orchestrateState "GA" 0 1 1 allOkWorld false
        (orchestrateState "GA" 0 1 1 allOkWorld false emptyStore).store).evs
      = (split_dates 0 1 1).map (fun c => Ev.fetchSkip c.1 c.2)
        ++ [Ev.combineView, Ev.hailSkip, Ev.aliasView, Ev.addrSkip, Ev.mapExport] ∧
    writesOf (orchestrateState "GA" 0 1 1 allOkWorld false
        (orchestrateState "GA" 0 1 1 allOkWorld false emptyStore).store).evs = 3) := by
  refine ⟨by decide, by decide, by decide, ?_⟩
  exact C2_second_run_guarded_steps_skipped "GA" 0 1 1 allOkWorld emptyStore
    (by decide) (by decide) (by decide) rfl rfl rfl

/-! ### Step ordering and gating (C6) -/

lemma fetchChunk_evs (w : World) (force : Bool) (acc : FetchRes) (ic : ℕ × (ℤ × ℤ)) :
    ∃ x, (fetchChunk w force acc ic).evs = acc.evs ++ [x] ∧ stepIdx x = 0 := by
  rw [fetchChunk]
  split
  · exact ⟨_, rfl, rfl⟩
  · split
    · exact ⟨_, rfl, rfl⟩
    · exact ⟨_, rfl, rfl⟩
    · exact ⟨_, rfl, rfl⟩

lemma fetchLoop_evs_zero (w : World) (force : Bool) :
    ∀ (l : List (ℤ × ℤ)) (i : ℕ) (acc : FetchRes),
      (∀ ev ∈ acc.evs, stepIdx ev = 0) →
      ∀ ev ∈ (fetchLoop w force i l acc).evs, stepIdx ev = 0 := by
  intro l
  induction l with
  | nil => intro i acc h; exact h
  | cons c rest ih =>
    intro i acc h
    refine ih (i + 1) (fetchChunk w force acc (i, c)) ?_
    obtain ⟨x, hx, hx0⟩ := fetchChunk_evs w force acc (i, c)
    rw [hx]
    intro ev hev
    rcases List.mem_append.mp hev with h1 | h1
    · exact h ev h1
    · rw [List.mem_singleton.mp h1]
      exact hx0

lemma fetchChunk_succ_count (w : World) (force : Bool) (acc : FetchRes) (ic : ℕ × (ℤ × ℤ))
    (h : acc.fetched.length ≤ (acc.evs.filter Ev.isFetchSucc).length) :
    (fetchChunk w force acc ic).fetched.length
      ≤ ((fetchChunk w force acc ic).evs.filter Ev.isFetchSucc).length := by
  rw [fetchChunk]
  split
  · have h1 : ([Ev.fetchSkip ic.2.1 ic.2.2].filter Ev.isFetchSucc).length = 1 := rfl
    simp only [List.filter_append, List.length_append, List.length_singleton, h1]
    omega
  · split
    · have h1 : ([Ev.fetchOk ic.2.1 ic.2.2].filter Ev.isFetchSucc).length = 1 := rfl
      simp only [List.filter_append, List.length_append, List.length_singleton, h1]
      omega
    · have h1 : ([Ev.fetchFail ic.2.1 ic.2.2].filter Ev.isFetchSucc).length = 0 := rfl
      simp only [List.filter_append, List.length_append, List.length_singleton, h1]
      omega
    · have h1 : ([Ev.fetchMiss ic.2.1 ic.2.2].filter Ev.isFetchSucc).length = 0 := rfl
      simp only [List.filter_append, List.length_append, List.length_singleton, h1]
      omega

lemma fetchLoop_succ_count (w : World) (force : Bool) :
    ∀ (l : List (ℤ × ℤ)) (i : ℕ) (acc : FetchRes),
      acc.fetched.length ≤ (acc.evs.filter Ev.isFetchSucc).length →
      (fetchLoop w force i l acc).fetched.length
        ≤ ((fetchLoop w force i l acc).evs.filter Ev.isFetchSucc).length := by
  intro l
  induction l with
  | nil => intro i acc h; exact h
  | cons c rest ih =>
    intro i acc h
    exact ih (i + 1) _ (fetchChunk_succ_count w force acc (i, c) h)

lemma fetchPhase_succ_exists (chunks : List (ℤ × ℤ)) (w : World) (force : Bool) (st : Store)
    (hne : (fetchPhase chunks w force st).fetched ≠ []) :
    ∃ ev ∈ (fetchPhase chunks w force st).evs, Ev.isFetchSucc ev = true := by
  have hcount := fetchLoop_succ_count w force chunks 0
    { store := st, evs := [], fetched := [] } (by simp)
  rw [fetchPhase] at hne ⊢
  have h1 : 0 < (fetchLoop w force 0 chunks
      { store := st, evs := [], fetched := [] }).fetched.length :=
    List.length_pos.mpr hne
  have h2 : 0 < ((fetchLoop w force 0 chunks
      { store := st, evs := [], fetched := [] }).evs.filter Ev.isFetchSucc).length := by
    omega
  obtain ⟨ev, hev⟩ := List.exists_mem_of_length_pos h2
  exact ⟨ev, (List.mem_filter.mp hev).1, (List.mem_filter.mp hev).2⟩

lemma pairwise_of_zero (l : List Ev) (h : ∀ x ∈ l, stepIdx x = 0) :
    l.Pairwise (fun a b => stepIdx a ≤ stepIdx b) := by
  induction l with
  | nil => exact List.Pairwise.nil
  | cons a t ih =>
    refine List.Pairwise.cons ?_ (ih fun x hx => h x (List.mem_cons_of_mem a hx))
    intro b _
    rw [h a (List.mem_cons_self a t)]
    exact Nat.zero_le _

lemma exportStep_evs_shape (w : World) (st : Store) :
    (exportStep w st).evs = [Ev.mapExport] ∨ (exportStep w st).evs = [] := by
  rw [exportStep]
  split
  · left; rfl
  · right; rfl

lemma addrStep_props (stCode : String) (s e : ℤ) (w : World) (force : Bool) (st : Store) :
    (∀ ev ∈ (addrStep stCode s e w force st).evs, 5 ≤ stepIdx ev) ∧
    ((addrStep stCode s e w force st).evs.Pairwise (fun a b => stepIdx a ≤ stepIdx b)) ∧
    (Ev.mapExport ∈ (addrStep stCode s e w force st).evs →
      Ev.addrSkip ∈ (addrStep stCode s e w force st).evs
        ∨ Ev.addrRun ∈ (addrStep stCode s e w force st).evs) := by
  rw [addrStep]
  split
  · rw [seqRes_evs_of_none rfl]
    rcases exportStep_evs_shape w _ with h | h <;> rw [h] <;>
      refine ⟨?_, ?_, ?_⟩ <;> simp [stepIdx, List.pairwise_cons] <;> omega
  · split
    · rw [seqRes_evs_of_none rfl]
      rcases exportStep_evs_shape w _ with h | h <;> rw [h] <;>
        refine ⟨?_, ?_, ?_⟩ <;> simp [stepIdx, List.pairwise_cons] <;> omega
    · refine ⟨?_, ?_, ?_⟩ <;> simp

lemma aliasStep_props (stCode : String) (s e : ℤ) (w : World) (force : Bool) (st : Store) :
    (∀ ev ∈ (aliasStep stCode s e w force st).evs, 4 ≤ stepIdx ev) ∧
    ((aliasStep stCode s e w force st).evs.Pairwise (fun a b => stepIdx a ≤ stepIdx b)) ∧
    (Ev.mapExport ∈ (aliasStep stCode s e w force st).evs →
      Ev.addrSkip ∈ (aliasStep stCode s e w force st).evs
        ∨ Ev.addrRun ∈ (aliasStep stCode s e w force st).evs) ∧
    Ev.aliasView ∈ (aliasStep stCode s e w force st).evs := by
  rw [aliasStep, seqRes_evs_of_none rfl]
  obtain ⟨hb, hp, hg⟩ := addrStep_props stCode s e w force _
  refine ⟨?_, ?_, ?_, ?_⟩
  · intro ev hev
    rcases List.mem_append.mp hev with h1 | h1
    · rw [List.mem_singleton.mp h1]
      exact Nat.le_refl 4
    · exact le_trans (by omega) (hb ev h1)
  · rw [List.pairwise_append]
    refine ⟨List.pairwise_singleton _ _, hp, ?_⟩
    intro a ha b hb2
    rw [List.mem_singleton.mp ha]
    exact le_trans (by decide) (hb b hb2)
  · intro hmem
    rcases List.mem_append.mp hmem with h1 | h1
    · simp at h1
    · rcases hg h1 with h2 | h2
      · exact Or.inl (List.mem_append_right _ h2)
      · exact Or.inr (List.mem_append_right _ h2)
  · exact List.mem_append_left _ (List.mem_singleton_self _)

lemma hailStep_props (stCode : String) (s e : ℤ) (w : World) (force : Bool) (st : Store) :
    (∀ ev ∈ (hailStep stCode s e w force st).evs, 3 ≤ stepIdx ev) ∧
    ((hailStep stCode s e w force st).evs.Pairwise (fun a b => stepIdx a ≤ stepIdx b)) ∧
    (Ev.mapExport ∈ (hailStep stCode s e w force st).evs →
      Ev.addrSkip ∈ (hailStep stCode s e w force st).evs
        ∨ Ev.addrRun ∈ (hailStep stCode s e w force st).evs) ∧
    ((Ev.addrSkip ∈ (hailStep stCode s e w force st).evs
        ∨ Ev.addrRun ∈ (hailStep stCode s e w force st).evs) →
      Ev.aliasView ∈ (hailStep stCode s e w force st).evs) ∧
    (Ev.aliasView ∈ (hailStep stCode s e w force st).evs →
      Ev.hailSkip ∈ (hailStep stCode s e w force st).evs
        ∨ Ev.hailRun ∈ (hailStep stCode s e w force st).evs) := by
  rw [hailStep]
  split
  · rw [seqRes_evs_of_none rfl]
    obtain ⟨hb, hp, hg, hav⟩ := aliasStep_props stCode s e w force _
    refine ⟨?_, ?_, ?_, ?_, ?_⟩
    · intro ev hev
      rcases List.mem_append.mp hev with h1 | h1
      · rw [List.mem_singleton.mp h1]
        exact Nat.le_refl 3
      · exact le_trans (by decide) (hb ev h1)
    · rw [List.pairwise_append]
      refine ⟨List.pairwise_singleton _ _, hp, ?_⟩
      intro a ha b hb2
      rw [List.mem_singleton.mp ha]
      exact le_trans (by decide) (hb b hb2)
    · intro hmem
      rcases List.mem_append.mp hmem with h1 | h1
      · simp at h1
      · rcases hg h1 with h2 | h2
        · exact Or.inl (List.mem_append_right _ h2)
        · exact Or.inr (List.mem_append_right _ h2)
    · intro _
      exact List.mem_append_right _ hav
    · intro _
      exact Or.inl (List.mem_append_left _ (List.mem_singleton_self _))
  · split
    · rw [seqRes_evs_of_none rfl]
      obtain ⟨hb, hp, hg, hav⟩ := aliasStep_props stCode s e w force _
      refine ⟨?_, ?_, ?_, ?_, ?_⟩
      · intro ev hev
        rcases List.mem_append.mp hev with h1 | h1
        · rw [List.mem_singleton.mp h1]
          exact Nat.le_refl 3
        · exact le_trans (by decide) (hb ev h1)
      · rw [List.pairwise_append]
        refine ⟨List.pairwise_singleton _ _, hp, ?_⟩
        intro a ha b hb2
        rw [List.mem_singleton.mp ha]
        exact le_trans (by decide) (hb b hb2)
      · intro hmem
        rcases List.mem_append.mp hmem with h1 | h1
        · simp at h1
        · rcases hg h1 with h2 | h2
          · exact Or.inl (List.mem_append_right _ h2)
          · exact Or.inr (List.mem_append_right _ h2)
      · intro _
        exact List.mem_append_right _ hav
      · intro _
        exact Or.inr (List.mem_append_left _ (List.mem_singleton_self _))
    · refine ⟨?_, ?_, ?_, ?_, ?_⟩ <;> simp

lemma combineStep_props (stCode : String) (s e : ℤ) (w : World) (force : Bool)
    (st : Store) (fetched : List TName) :
    (∀ ev ∈ (combineStep stCode s e w force st fetched).evs, 2 ≤ stepIdx ev) ∧
    ((combineStep stCode s e w force st fetched).evs.Pairwise
      (fun a b => stepIdx a ≤ stepIdx b)) ∧
    (Ev.mapExport ∈ (combineStep stCode s e w force st fetched).evs →
      Ev.addrSkip ∈ (combineStep stCode s e w force st fetched).evs
        ∨ Ev.addrRun ∈ (combineStep stCode s e w force st fetched).evs) ∧
    ((Ev.addrSkip ∈ (combineStep stCode s e w force st fetched).evs
        ∨ Ev.addrRun ∈ (combineStep stCode s e w force st fetched).evs) →
      Ev.aliasView ∈ (combineStep stCode s e w force st fetched).evs) ∧
    (Ev.aliasView ∈ (combineStep stCode s e w force st fetched).evs →
      Ev.hailSkip ∈ (combineStep stCode s e w force st fetched).evs
        ∨ Ev.hailRun ∈ (combineStep stCode s e w force st fetched).evs) ∧
    Ev.combineView ∈ (combineStep stCode s e w force st fetched).evs := by
  rw [combineStep, seqRes_evs_of_none rfl]
  obtain ⟨hb, hp, hg, hga, hgal⟩ := hailStep_props stCode s e w force _
  refine ⟨?_, ?_, ?_, ?_, ?_, ?_⟩
  · intro ev hev
    rcases List.mem_append.mp hev with h1 | h1
    · rw [List.mem_singleton.mp h1]
      exact Nat.le_refl 2
    · exact le_trans (by decide) (hb ev h1)
  · rw [List.pairwise_append]
    refine ⟨List.pairwise_singleton _ _, hp, ?_⟩
    intro a ha b hb2
    rw [List.mem_singleton.mp ha]
    exact le_trans (by decide) (hb b hb2)
  · intro hmem
    rcases List.mem_append.mp hmem with h1 | h1
    · simp at h1
    · rcases hg h1 with h2 | h2
      · exact Or.inl (List.mem_append_right _ h2)
      · exact Or.inr (List.mem_append_right _ h2)
  · intro hmem
    have h1 : Ev.addrSkip ∈ (hailStep stCode s e w force
        { st with
          tables := addTable (TName.combined stCode s e) st.tables
          runLog := st.runLog ++ [(StepName.combine, LStatus.ok)]
          console := st.console
            ++ [CMsg.combinedNote
                  (dedupFirst (fetched.filter (fun t => decide (t ∈ st.tables)))).length] }).evs
        ∨ Ev.addrRun ∈ (hailStep stCode s e w force
        { st with
          tables := addTable (TName.combined stCode s e) st.tables
          runLog := st.runLog ++ [(StepName.combine, LStatus.ok)]
          console := st.console
            ++ [CMsg.combinedNote
                  (dedupFirst (fetched.filter (fun t => decide (t ∈ st.tables)))).length] }).evs := by
      rcases hmem with h2 | h2
      · rcases List.mem_append.mp h2 with h3 | h3
        · simp at h3
        · exact Or.inl h3
      · rcases List.mem_append.mp h2 with h3 | h3
        · simp at h3
        · exact Or.inr h3
    exact List.mem_append_right _ (hga h1)
  · intro hmem
    rcases List.mem_append.mp hmem with h1 | h1
    · simp at h1
    · rcases hgal h1 with h2 | h2
      · exact Or.inl (List.mem_append_right _ h2)
      · exact Or.inr (List.mem_append_right _ h2)
  · exact List.mem_append_left _ (List.mem_singleton_self _)

/-- C6: the pipeline events occur only in the fixed order acquire →
combine → primary-cluster → alias → secondary-cluster → export (the event
trace is sorted by step position); the export, secondary-cluster and
alias steps appear only when their required predecessor was skipped or ran
successfully; the combine step appears only when at least one acquisition
sub-chunk succeeded (fetched or already present); and when zero sub-chunks
succeeded the partition is abandoned — the abandonment message is printed
and no later step is attempted. -/
theorem C6_fixed_order_gating_abandonment (stCode : String) (start e cd : ℤ) (w : World)
    (force : Bool) (st : Store) :
    ((orchestrateState stCode start e cd w force st).evs.Pairwise
      (fun a b => stepIdx a ≤ stepIdx b)) ∧
    (Ev.mapExport ∈ (orchestrateState stCode start e cd w force st).evs →
      Ev.addrSkip ∈ (orchestrateState stCode start e cd w force st).evs
        ∨ Ev.addrRun ∈ (orchestrateState stCode start e cd w force st).evs) ∧
    ((Ev.addrSkip ∈ (orchestrateState stCode start e cd w force st).evs
        ∨ Ev.addrRun ∈ (orchestrateState stCode start e cd w force st).evs) →
      Ev.aliasView ∈ (orchestrateState stCode start e cd w force st).evs) ∧
    (Ev.aliasView ∈ (orchestrateState stCode start e cd w force st).evs →
      Ev.hailSkip ∈ (orchestrateState stCode start e cd w force st).evs
        ∨ Ev.hailRun ∈ (orchestrateState stCode start e cd w force st).evs) ∧
    ((Ev.hailSkip ∈ (orchestrateState stCode start e cd w force st).evs
        ∨ Ev.hailRun ∈ (orchestrateState stCode start e cd w force st).evs) →
      Ev.combineView ∈ (orchestrateState stCode start e cd w force st).evs) ∧
    (Ev.combineView ∈ (orchestrateState stCode start e cd w force st).evs →
      ∃ ev ∈ (orchestrateState stCode start e cd w force st).evs,
        Ev.isFetchSucc ev = true) ∧
    (((orchestrateState stCode start e cd w force st).evs.all
        (fun ev => !(Ev.isFetchSucc ev))) = true →
      Ev.abandon ∈ (orchestrateState stCode start e cd w force st).evs ∧
      Ev.combineView ∉ (orchestrateState stCode start e cd w force st).evs ∧
      Ev.mapExport ∉ (orchestrateState stCode start e cd w force st).evs ∧
      CMsg.abandoned stCode ∈ (orchestrateState stCode start e cd w force st).store.console) := by
  have hfe0 : ∀ ev ∈ (fetchPhase (split_dates start e cd) w force st).evs, stepIdx ev = 0 := by
    rw [fetchPhase]
    exact fetchLoop_evs_zero w force _ 0 _ (by intro ev h; simp at h)
  by_cases hemp : (fetchPhase (split_dates start e cd) w force st).fetched.isEmpty = true
  · have hevs : (orchestrateState stCode start e cd w force st).evs
        = (fetchPhase (split_dates start e cd) w force st).evs ++ [Ev.abandon] := by
      rw [orchestrateState, orchAfterFetch, if_pos hemp]
    have hcons : (orchestrateState stCode start e cd w force st).store.console
        = (fetchPhase (split_dates start e cd) w force st).store.console
          ++ [CMsg.abandoned stCode] := by
      rw [orchestrateState, orchAfterFetch, if_pos hemp]
    have hmem_z : ∀ ev ∈ (orchestrateState stCode start e cd w force st).evs,
        stepIdx ev = 0 ∨ ev = Ev.abandon := by
      rw [hevs]
      intro ev h
      rcases List.mem_append.mp h with h1 | h1
      · exact Or.inl (hfe0 ev h1)
      · exact Or.inr (List.mem_singleton.mp h1)
    have hnC : Ev.combineView ∉ (orchestrateState stCode start e cd w force st).evs := by
      intro h
      rcases hmem_z _ h with h1 | h1 <;> simp [stepIdx] at h1
    have hnM : Ev.mapExport ∉ (orchestrateState stCode start e cd w force st).evs := by
      intro h
      rcases hmem_z _ h with h1 | h1 <;> simp [stepIdx] at h1
    have hnAS : Ev.addrSkip ∉ (orchestrateState stCode start e cd w force st).evs := by
      intro h
      rcases hmem_z _ h with h1 | h1 <;> simp [stepIdx] at h1
    have hnAR : Ev.addrRun ∉ (orchestrateState stCode start e cd w force st).evs := by
      intro h
      rcases hmem_z _ h with h1 | h1 <;> simp [stepIdx] at h1
    have hnAV : Ev.aliasView ∉ (orchestrateState stCode start e cd w force st).evs := by
      intro h
      rcases hmem_z _ h with h1 | h1 <;> simp [stepIdx] at h1
    refine ⟨?_, ?_, ?_, ?_, ?_, ?_, ?_⟩
    · rw [hevs, List.pairwise_append]
      refine ⟨pairwise_of_zero _ hfe0, List.pairwise_singleton _ _, ?_⟩
      intro a ha b _
      rw [hfe0 a ha]
      exact Nat.zero_le _
    · intro h
      exact absurd h hnM
    · intro h
      rcases h with h | h
      · exact absurd h hnAS
      · exact absurd h hnAR
    · intro h
      exact absurd h hnAV
    · intro h
      exfalso
      rcases h with h | h <;>
        rcases hmem_z _ h with h1 | h1 <;> simp [stepIdx] at h1
    · intro h
      exact absurd h hnC
    · intro _
      refine ⟨?_, hnC, hnM, ?_⟩
      · rw [hevs]
        exact List.mem_append_right _ (List.mem_singleton_self _)
      · rw [hcons]
        exact List.mem_append_right _ (List.mem_singleton_self _)
  · have hfetched : (fetchPhase (split_dates start e cd) w force st).fetched ≠ [] := by
      intro h0
      exact hemp (by rw [List.isEmpty_iff]; exact h0)
    have hevs : (orchestrateState stCode start e cd w force st).evs
        = (fetchPhase (split_dates start e cd) w force st).evs
          ++ (combineStep stCode start e w force
              (fetchPhase (split_dates start e cd) w force st).store
              (fetchPhase (split_dates start e cd) w force st).fetched).evs := by
      rw [orchestrateState, orchAfterFetch, if_neg hemp]
    obtain ⟨cb, cp, cgm, cga, cgal, ccv⟩ := combineStep_props stCode start e w force
      (fetchPhase (split_dates start e cd) w force st).store
      (fetchPhase (split_dates start e cd) w force st).fetched
    have hsplit : ∀ {ev : Ev}, ev ∈ (orchestrateState stCode start e cd w force st).evs →
        ev ∈ (fetchPhase (split_dates start e cd) w force st).evs
          ∨ ev ∈ (combineStep stCode start e w force
              (fetchPhase (split_dates start e cd) w force st).store
              (fetchPhase (split_dates start e cd) w force st).fetched).evs := by
      intro ev h
      rw [hevs] at h
      exact List.mem_append.mp h
    refine ⟨?_, ?_, ?_, ?_, ?_, ?_, ?_⟩
    · rw [hevs, List.pairwise_append]
      refine ⟨pairwise_of_zero _ hfe0, cp, ?_⟩
      intro a ha b _
      rw [hfe0 a ha]
      exact Nat.zero_le _
    · intro h
      rcases hsplit h with h1 | h1
      · have := hfe0 _ h1
        simp [stepIdx] at this
      · rcases cgm h1 with h2 | h2
        · exact Or.inl (by rw [hevs]; exact List.mem_append_right _ h2)
        · exact Or.inr (by rw [hevs]; exact List.mem_append_right _ h2)
    · intro h
      have h1 : Ev.addrSkip ∈ (combineStep stCode start e w force
            (fetchPhase (split_dates start e cd) w force st).store
            (fetchPhase (split_dates start e cd) w force st).fetched).evs
          ∨ Ev.addrRun ∈ (combineStep stCode start e w force
            (fetchPhase (split_dates start e cd) w force st).store
            (fetchPhase (split_dates start e cd) w force st).fetched).evs := by
        rcases h with h | h
        · rcases hsplit h with h2 | h2
          · have := hfe0 _ h2
            simp [stepIdx] at this
          · exact Or.inl h2
        · rcases hsplit h with h2 | h2
          · have := hfe0 _ h2
            simp [stepIdx] at this
          · exact Or.inr h2
      rw [hevs]
      exact List.mem_append_right _ (cga h1)
    · intro h
      rcases hsplit h with h1 | h1
      · have := hfe0 _ h1
        simp [stepIdx] at this
      · rcases cgal h1 with h2 | h2
        · exact Or.inl (by rw [hevs]; exact List.mem_append_right _ h2)
        · exact Or.inr (by rw [hevs]; exact List.mem_append_right _ h2)
    · intro _
      rw [hevs]
      exact List.mem_append_right _ ccv
    · intro _
      obtain ⟨ev, hev, hsucc⟩ := fetchPhase_succ_exists (split_dates start e cd) w force st hfetched
      exact ⟨ev, by rw [hevs]; exact List.mem_append_left _ hev, hsucc⟩
    · intro hall
      exfalso
      obtain ⟨ev, hev, hsucc⟩ := fetchPhase_succ_exists (split_dates start e cd) w force st hfetched
      have hmem : ev ∈ (orchestrateState stCode start e cd w force st).evs := by
        rw [hevs]
        exact List.mem_append_left _ hev
      have := List.all_eq_true.mp hall ev hmem
      rw [hsucc] at this
      simp at this

/-- Witness for C6: a fully successful run exercises the order and gating
conjuncts, and a run whose every fetch fails exercises the abandonment
conjunct. -/
theorem C6_fixed_order_gating_abandonment_witness :
    (Ev.mapExport ∈ (orchestrateState "GA" 0 1 1 allOkWorld false emptyStore).evs ∧
      (Ev.addrSkip ∈ (orchestrateState "GA" 0 1 1 allOkWorld false emptyStore).evs
        ∨ Ev.addrRun ∈ (orchestrateState "GA" 0 1 1 allOkWorld false emptyStore).evs)) ∧
    (((orchestrateState "GA" 0 1 1 allFetchFailWorld false emptyStore).evs.all
        (fun ev => !(Ev.isFetchSucc ev))) = true ∧
      Ev.abandon ∈ (orchestrateState "GA" 0 1 1 allFetchFailWorld false emptyStore).evs ∧
      Ev.combineView ∉ (orchestrateState "GA" 0 1 1 allFetchFailWorld false emptyStore).evs ∧
      CMsg.abandoned "GA"
        ∈ (orchestrateState "GA" 0 1 1 allFetchFailWorld false emptyStore).store.console) := by
  constructor
  · have hm : Ev.mapExport ∈ (orchestrateState "GA" 0 1 1 allOkWorld false emptyStore).evs := by
      decide
    obtain ⟨_, h2, _, _, _, _, _⟩ :=
      C6_fixed_order_gating_abandonment "GA" 0 1 1 allOkWorld false emptyStore
    exact ⟨hm, h2 hm⟩
  · have hall : ((orchestrateState "GA" 0 1 1 allFetchFailWorld false emptyStore).evs.all
        (fun ev => !(Ev.isFetchSucc ev))) = true := by
      decide
    obtain ⟨_, _, _, _, _, _, h7⟩ :=
      C6_fixed_order_gating_abandonment "GA" 0 1 1 allFetchFailWorld false emptyStore
    obtain ⟨ha, hc, _, hcon⟩ := h7 hall
    exact ⟨hall, ha, hc, hcon⟩

/-! ### Exit code (C8) -/

lemma mainLoop_exit_zero (w : String → World) (force : Bool) (start e cd : ℤ) :
    ∀ (states : List String) (st : Store),
      (∀ s ∈ states, s ∈ STATE_BBOX_states) →
      (mainLoop w force start e cd states st).exitCode = 0 := by
  intro states
  induction states with
  | nil => intro st _; rfl
  | cons s rest ih =>
    intro st hcfg
    rw [mainLoop, if_pos (hcfg s (List.mem_cons_self s rest))]
    exact ih _ (fun x hx => hcfg x (List.mem_cons_of_mem s hx))

/-- C8 (amended): the process exit code never reflects partition outcomes.
With DATABASE_URL set, valid dates and every requested state configured,
`main` exits 0 for every world — including total acquisition failure of a
partition, which is only abandoned with console warnings.  A non-zero exit
arises only from configuration errors (missing DATABASE_URL → 2; invalid
dates, start ≥ end, an empty state list, or an unconfigured state → 1). -/
theorem C8_exit_zero_regardless_of_failures (start e cd : ℤ) (states : List String)
    (w : String → World) (force : Bool) (st0 : Store)
    (hd : start < e)
    (hs : states.isEmpty = false)
    (hb : states.all (fun s => decide (s ∈ STATE_BBOX_states)) = true) :
    (mainRun true true start e cd states w force st0).exitCode = 0 := by
  rw [mainRun]
  rw [if_neg (by simp)]
  rw [if_neg (not_le.mpr hd)]
  rw [if_neg (by simp [hs])]
  rw [if_neg (by simp)]
  exact mainLoop_exit_zero w force start e cd states st0
    (fun s hsm => of_decide_eq_true (List.all_eq_true.mp hb s hsm))

/-- Counterexample to C8 as stated: a partition with total acquisition
failure (no sub-chunk succeeds, the partition is abandoned and warnings are
printed) still ends the process with exit code 0, not non-zero. -/
theorem C8_exit_code_counterexample :
    (mainRun true true 0 1 1 ["GA"] (fun _ => allFetchFailWorld) false emptyStore).exitCode
      = 0 ∧
    ((orchestrateState "GA" 0 1 1 allFetchFailWorld false emptyStore).evs.all
      (fun ev => !(Ev.isFetchSucc ev))) = true ∧
    Ev.abandon ∈ (orchestrateState "GA" 0 1 1 allFetchFailWorld false emptyStore).evs ∧
    CMsg.fetchWarn 0 1
      ∈ (orchestrateState "GA" 0 1 1 allFetchFailWorld false emptyStore).store.console := by
  decide

/-- Witness for the amended C8: a run with every fetch failing still exits 0. -/
theorem C8_exit_zero_regardless_of_failures_witness :
    ((0 : ℤ) < 1) ∧ (["GA"].isEmpty = false) ∧
    (["GA"].all (fun s => decide (s ∈ STATE_BBOX_states)) = true) ∧
    (mainRun true true 0 1 1 ["GA"] (fun _ => allFetchFailWorld) false emptyStore).exitCode
      = 0 := by
  refine ⟨by decide, rfl, by decide, ?_⟩
  exact C8_exit_zero_regardless_of_failures 0 1 1 ["GA"] (fun _ => allFetchFailWorld)
    false emptyStore (by decide) rfl (by decide)

end StormLeads
